import Mathlib

/-!
Verification development for the sailway-planner repository.

The core under verification is the `RakeOptimizer` (the richer, deep-cloning
version with the 8-component cost model) together with the shared business
constants, and — for the frame-effect claim — the earlier non-cloning
`RakeOptimizer` version.

Embedding conventions:
* JavaScript numbers are modelled as `Rat` (exact rationals); integer-valued
  quantities such as wagon counts, rounded monetary amounts and SLA scores are
  `Int`.
* `Math.round` is `jsRound` (round half towards positive infinity, as in JS),
  `Math.ceil` is `Int.ceil`, `Math.floor` is `Int.floor`.
* Timestamps (`Date.now()`, parsed `deadline_date` values, dispatch times) are
  epoch milliseconds as `Int`; the current time `now` and the current `year`
  (used only to format rake ids) are explicit parameters.
* `estimatedDispatchTime` stores the epoch-millisecond timestamp rather than
  its ISO-8601 rendering; no claim depends on the string rendering.
* Thrown `Error`s are `Except.error`; code that cannot throw is pure.
* The deep-cloning constructor is modelled by value semantics: the optimizer
  operates on the snapshot values it is given, so the caller's data is the
  unchanged input.  The non-cloning version's aliasing is modelled by returning
  the final internal pools as the caller-visible arrays after `optimize()`.
-/

/-- Order priority levels (the four levels accepted by the validator). -/
inductive Priority where
  | critical
  | high
  | medium
  | low
deriving DecidableEq, Repr

/-- An order, as consumed by the optimizer (`deadline_date` already parsed to
epoch milliseconds). -/
structure Order where
  id : String
  product_name : String
  tonnage_required : Rat
  priority_level : Priority
  deadline_date : Int
  destination : String
  customer_name : String
deriving DecidableEq, Repr

/-- An inventory row: tonnage of one product available at one stockyard. -/
structure InventoryItem where
  stockyard_name : String
  product_name : String
  tonnage_available : Rat
deriving DecidableEq, Repr

/-- A wagon fleet record. -/
structure Wagon where
  wagon_type : String
  available_count : Rat
  total_count : Rat
deriving DecidableEq, Repr

/-- A loading point. -/
structure LoadingPoint where
  point_name : String
  capacity_tph : Rat
  compatible_products : List String
  operational_status : String
deriving DecidableEq, Repr

/-- Static wagon-type data from `BUSINESS_RULES.WAGON_TYPES`. -/
structure WagonSpec where
  capacity : Rat
  suitableFor : List String
  costPerKm : Rat
deriving DecidableEq, Repr

/-- Static product data from `BUSINESS_RULES.PRODUCTS`. -/
structure ProductConfig where
  density : Rat
  wagonTypes : List String
deriving DecidableEq, Repr

/-- The `BUSINESS_RULES.WAGON_TYPES` table. -/
def WAGON_TYPES (t : String) : Option WagonSpec :=
  if t = "BOXN" then some ⟨58.8, ["Iron Ore", "Coal", "Limestone", "Dolomite"], 2.5⟩
  else if t = "BCN" then some ⟨60.0, ["Coal", "Iron Ore", "Coke"], 2.3⟩
  else if t = "BCCN" then some ⟨62.0, ["Coal"], 2.4⟩
  else if t = "BOBR" then some ⟨55.0, ["Iron Ore", "Limestone"], 2.6⟩
  else none

/-- The `BUSINESS_RULES.PRODUCTS` table. -/
def PRODUCTS (p : String) : Option ProductConfig :=
  if p = "Iron Ore" then some ⟨2.5, ["BOXN", "BCN", "BOBR"]⟩
  else if p = "Coal" then some ⟨1.4, ["BCN", "BCCN", "BOXN"]⟩
  else if p = "Limestone" then some ⟨2.3, ["BOXN", "BOBR"]⟩
  else if p = "Dolomite" then some ⟨2.4, ["BOXN"]⟩
  else if p = "Coke" then some ⟨1.0, ["BCN"]⟩
  else if p = "Finished Steel" then some ⟨7.8, ["BOXN"]⟩
  else none

/-- Rake sizing policy (`BUSINESS_RULES.RAKE`). -/
def RAKE_minWagons : Int := 50

/-- Policy constant `BUSINESS_RULES.RAKE.maxWagons`. -/
def RAKE_maxWagons : Int := 59

/-- Policy constant `BUSINESS_RULES.RAKE.idealWagons`. -/
def RAKE_idealWagons : Int := 58

/-- Policy constant `BUSINESS_RULES.RAKE.minUtilization`. -/
def RAKE_minUtilization : Rat := 0.75

/-- Cost coefficients (`BUSINESS_RULES.COSTS`). -/
def COSTS_baseRakeCharge : Rat := 25000

/-- Cost coefficient `BUSINESS_RULES.COSTS.perTonneRate` (used by the older optimizer). -/
def COSTS_perTonneRate : Rat := 450

/-- Cost coefficient `BUSINESS_RULES.COSTS.distanceMultiplier`. -/
def COSTS_distanceMultiplier : Rat := 1.5

/-- Cost coefficient `BUSINESS_RULES.COSTS.loadingCostPerTonne`. -/
def COSTS_loadingCostPerTonne : Rat := 75

/-- Cost coefficient `BUSINESS_RULES.COSTS.demurragePerHour`. -/
def COSTS_demurragePerHour : Rat := 1500

/-- Cost coefficient `BUSINESS_RULES.COSTS.idleFreightPerDay`. -/
def COSTS_idleFreightPerDay : Rat := 8000

/-- Cost coefficient `BUSINESS_RULES.COSTS.penaltyPerDayLate`. -/
def COSTS_penaltyPerDayLate : Rat := 5000

/-- Priority premium multipliers (`BUSINESS_RULES.COSTS.priorityPremium`). -/
def COSTS_priorityPremium : Priority → Rat
  | .critical => 1.5
  | .high => 1.2
  | .medium => 1.0
  | .low => 0.9

/-- SLA parameter `BUSINESS_RULES.SLA.atRiskThresholdDays`. -/
def SLA_atRiskThresholdDays : Rat := 3

/-- Optimization weight `BUSINESS_RULES.WEIGHTS.priority`. -/
def WEIGHTS_priority : Rat := 0.4

/-- Optimization weight `BUSINESS_RULES.WEIGHTS.utilization`. -/
def WEIGHTS_utilization : Rat := 0.3

/-- Optimization weight `BUSINESS_RULES.WEIGHTS.cost`. -/
def WEIGHTS_cost : Rat := 0.2

/-- Optimization weight `BUSINESS_RULES.WEIGHTS.deadline`. -/
def WEIGHTS_deadline : Rat := 0.1

/-- The `BUSINESS_RULES.VALID_CITIES` list. -/
def VALID_CITIES : List String :=
  ["Bhilai", "Rourkela", "Durgapur", "Bokaro", "Burnpur", "Mumbai", "Kolkata",
   "Delhi", "Chennai", "Bangalore", "Hyderabad", "Pune", "Jamshedpur", "Ranchi",
   "Cuttack", "Visakhapatnam", "Nagpur", "Raipur", "Bilaspur", "Korba"]

/-- The static `DISTANCE_MATRIX`, as a partial lookup. -/
def DISTANCE_MATRIX (origin destination : String) : Option Rat :=
  if origin = "Bhilai" then
    if destination = "Mumbai" then some 1150
    else if destination = "Kolkata" then some 1200
    else if destination = "Delhi" then some 1350
    else if destination = "Chennai" then some 1450
    else none
  else if origin = "Rourkela" then
    if destination = "Mumbai" then some 1800
    else if destination = "Kolkata" then some 450
    else if destination = "Delhi" then some 1650
    else if destination = "Chennai" then some 1900
    else none
  else if origin = "Durgapur" then
    if destination = "Mumbai" then some 1950
    else if destination = "Kolkata" then some 180
    else if destination = "Delhi" then some 1450
    else if destination = "Chennai" then some 1850
    else none
  else if origin = "Bokaro" then
    if destination = "Mumbai" then some 1700
    else if destination = "Kolkata" then some 400
    else if destination = "Delhi" then some 1300
    else if destination = "Chennai" then some 1800
    else none
  else none

/-- The exported `getDistance` helper: matrix lookup with the 800 km default. -/
def getDistance (origin destination : String) : Rat :=
  (DISTANCE_MATRIX origin destination).getD 800

/-- JavaScript `Math.round`: round half towards positive infinity. -/
def jsRound (q : Rat) : Int := Int.floor (q + 1/2)

/-- The `Math.round(x * 100) / 100` idiom: round to two decimal places. -/
def roundTo2 (q : Rat) : Rat := (jsRound (q * 100) : Rat) / 100

/-- Numeric value of a priority level (the `priorityValues` map). -/
def priorityValue : Priority → Rat
  | .critical => 4
  | .high => 3
  | .medium => 2
  | .low => 1

/-- Milliseconds in one day, the divisor `1000 * 60 * 60 * 24`. -/
def MS_PER_DAY : Rat := 86400000

/-- The `getDeadlineUrgency` bucketing of days until the deadline. -/
def getDeadlineUrgency (now deadline : Int) : Rat :=
  let daysUntil : Int := Int.floor (((deadline : Rat) - (now : Rat)) / MS_PER_DAY)
  if daysUntil ≤ 3 then 5
  else if daysUntil ≤ 7 then 4
  else if daysUntil ≤ 14 then 3
  else if daysUntil ≤ 30 then 2
  else 1

/-- The per-order composite score used by `prioritizeOrders`. -/
def calculateOrderScore (now : Int) (o : Order) : Rat :=
  priorityValue o.priority_level * WEIGHTS_priority +
    getDeadlineUrgency now o.deadline_date * WEIGHTS_deadline +
    min (o.tonnage_required / 1000) 5 * 0.1

/-- Stable descending sort by composite score (`prioritizeOrders`; JS
`Array.prototype.sort` is stable). -/
def prioritizeOrders (now : Int) (orders : List Order) : List Order :=
  List.insertionSort (fun a b => calculateOrderScore now a ≥ calculateOrderScore now b) orders

/-- Group key as built by `groupOrders`: product name and destination joined
with a hyphen. -/
def groupKey (o : Order) : String := o.product_name ++ "-" ++ o.destination

/-- Insert an order into the insertion-ordered association list of groups, as
a JS `Map` does: append to an existing bucket, or append a new bucket. -/
def addToGroups (gs : List (String × List Order)) (o : Order) : List (String × List Order) :=
  match gs with
  | [] => [(groupKey o, [o])]
  | (k, os) :: rest =>
    if k = groupKey o then (k, os ++ [o]) :: rest
    else (k, os) :: addToGroups rest o

/-- Total tonnage of a list of orders. -/
def sumTonnage (orders : List Order) : Rat :=
  (orders.map (fun o => o.tonnage_required)).sum

/-- The `groupOrders` step: group by product+destination (insertion order),
keep groups whose total tonnage reaches the 2000 t economic threshold. -/
def groupOrders (orders : List Order) : List (List Order) :=
  ((orders.foldl addToGroups []).map Prod.snd).filter (fun g => sumTonnage g ≥ 2000)

/-- Wagon capacity lookup with the 60 t default (`getWagonCapacity`). -/
def getWagonCapacity (wagonType : String) : Rat :=
  match WAGON_TYPES wagonType with
  | some spec => spec.capacity
  | none => 60

/-- The `selectOptimalWagonType` step: first compatible wagon type with at
least `minWagons` available. -/
def selectOptimalWagonType (productName : String) (wagons : List Wagon) : Option String :=
  match PRODUCTS productName with
  | none => none
  | some cfg =>
    cfg.wagonTypes.find? (fun wt =>
      (wagons.find? (fun w => w.wagon_type = wt ∧ w.available_count ≥ (RAKE_minWagons : Rat))).isSome)

/-- First element of a nonempty fold maximising a measure, mirroring the head
of a stable descending JS sort. -/
def firstMaxBy (f : InventoryItem → Rat) (x : InventoryItem) (xs : List InventoryItem) : InventoryItem :=
  xs.foldl (fun a b => if f b > f a then b else a) x

/-- The `findBestStockyard` step: among rows of the product with enough
tonnage, the first row of maximal availability (head of the stable
descending sort). -/
def findBestStockyard (productName : String) (tonnageNeeded : Rat)
    (inventory : List InventoryItem) : Option String :=
  match inventory.filter (fun inv =>
      inv.product_name = productName ∧ inv.tonnage_available ≥ tonnageNeeded) with
  | [] => none
  | x :: xs => some (firstMaxBy (fun i => i.tonnage_available) x xs).stockyard_name

/-- First loading point of maximal capacity (head of the stable descending JS
sort in `findBestLoadingPoint`). -/
def firstMaxLP (x : LoadingPoint) (xs : List LoadingPoint) : LoadingPoint :=
  xs.foldl (fun a b => if b.capacity_tph > a.capacity_tph then b else a) x

/-- The `findBestLoadingPoint` step: active, product-compatible point with the
highest capacity; `none` when the stockyard was unresolved. -/
def findBestLoadingPoint (productName : String) (stockyard : Option String)
    (loadingPoints : List LoadingPoint) : Option String :=
  match stockyard with
  | none => none
  | some _ =>
    match loadingPoints.filter (fun lp =>
        lp.operational_status = "active" ∧ productName ∈ lp.compatible_products) with
    | [] => none
    | x :: xs => some (firstMaxLP x xs).point_name

/-- The `checkWagonAvailability` step: the first fleet row of the type has at
least `count` wagons. -/
def checkWagonAvailability (wagonType : String) (count : Int) (wagons : List Wagon) : Bool :=
  match wagons.find? (fun w => w.wagon_type = wagonType) with
  | some w => w.available_count ≥ (count : Rat)
  | none => false

/-- Update the first list element satisfying the predicate. -/
def updateFirst (p : α → Bool) (f : α → α) : List α → List α
  | [] => []
  | x :: xs => if p x then f x :: xs else x :: updateFirst p f xs

/-- The mutable pools owned by one optimizer instance. -/
structure Pools where
  inventory : List InventoryItem
  wagons : List Wagon
deriving DecidableEq, Repr

/-- The `consumeInventory` step: decrement the first matching inventory row. -/
def consumeInventory (stockyard product : String) (tonnage : Rat) (st : Pools) : Pools :=
  let newInv := updateFirst
    (fun i => i.stockyard_name = stockyard ∧ i.product_name = product)
    (fun i => { i with tonnage_available := i.tonnage_available - tonnage }) st.inventory
  { st with inventory := newInv }

/-- The `consumeWagons` step: decrement the first fleet row of the type. -/
def consumeWagons (wagonType : String) (count : Int) (st : Pools) : Pools :=
  let newWagons := updateFirst (fun w => w.wagon_type = wagonType)
    (fun w => { w with available_count := w.available_count - (count : Rat) }) st.wagons
  { st with wagons := newWagons }

/-- One step of the greedy fill in `selectOrdersForRake` (accumulator holds
the selection in reverse). -/
def selectGo (maxCapacity targetCapacity : Rat) (acc : List Order) (tot : Rat) :
    List Order → List Order × Rat
  | [] => (acc.reverse, tot)
  | o :: rest =>
    if tot + o.tonnage_required ≤ maxCapacity then
      let tot' := tot + o.tonnage_required
      if tot' ≥ targetCapacity then ((o :: acc).reverse, tot')
      else selectGo maxCapacity targetCapacity (o :: acc) tot' rest
    else selectGo maxCapacity targetCapacity acc tot rest

/-- The `selectOrdersForRake` greedy fill: take orders in priority order while
staying under `maxWagons` worth of capacity, stopping once 90% of the ideal
capacity is reached. -/
def selectOrdersForRake (orders : List Order) (wagonCapacity : Rat) : List Order × Rat :=
  selectGo ((RAKE_maxWagons : Rat) * wagonCapacity)
    ((RAKE_idealWagons : Rat) * wagonCapacity * 0.9) [] 0 orders

/-- The 8-component cost breakdown attached to each plan (`CostBreakdown`). -/
structure CostBreakdown where
  base_freight : Int
  distance_cost : Int
  loading_cost : Int
  demurrage : Int
  penalty : Int
  idle_freight : Int
  priority_premium : Int
  total : Int
deriving DecidableEq, Repr

/-- A rake plan as produced by the deep-cloning optimizer. -/
structure RakePlan where
  rakeId : String
  orders : List Order
  totalTonnage : Rat
  wagonType : String
  wagonCount : Int
  utilization : Rat
  cost : Int
  costBreakdown : CostBreakdown
  priorityScore : Rat
  originStockyard : String
  destinations : List String
  loadingPoint : String
  estimatedDispatchTime : Int
  slaComplianceScore : Int
  multiDestination : Bool
deriving DecidableEq, Repr

/-- The parameter object passed to `buildRakePlan`. -/
structure BuildParams where
  rakeNumber : Int
  orders : List Order
  totalTonnage : Rat
  wagonType : String
  wagonCount : Int
  utilization : Rat
  stockyard : String
  destination : String
  loadingPoint : String
  productName : String
deriving DecidableEq, Repr

/-- Average numeric priority of the orders of a rake (`avgPriority`); an empty
order list yields `0` (division by zero), which buckets to `low` exactly as
the JS `NaN` comparisons do. -/
def avgPriorityOf (orders : List Order) : Rat :=
  (orders.map (fun o => priorityValue o.priority_level)).sum / (orders.length : Rat)

/-- Bucketing of the average priority into a level (`priorityLevel`). -/
def priorityLevelOfAvg (avg : Rat) : Priority :=
  if avg ≥ 3.5 then .critical
  else if avg ≥ 2.5 then .high
  else if avg ≥ 1.5 then .medium
  else .low

/-- The late-delivery penalty accumulated over a rake's orders. -/
def penaltyOf (now : Int) (orders : List Order) : Rat :=
  orders.foldl (fun acc o =>
    let daysLate : Int := max 0 (Int.ceil (((now : Rat) - (o.deadline_date : Rat)) / MS_PER_DAY))
    if daysLate > 0 then acc + (daysLate : Rat) * COSTS_penaltyPerDayLate else acc) 0

/-- The `calculateSLACompliance` score: 100, minus 30 per breached order and
10 per at-risk order, floored at 0. -/
def calculateSLACompliance (now : Int) (orders : List Order) : Int :=
  let score := orders.foldl (fun acc o =>
    let daysUntil : Rat := ((o.deadline_date : Rat) - (now : Rat)) / MS_PER_DAY
    if daysUntil < 0 then acc - 30
    else if daysUntil < SLA_atRiskThresholdDays then acc - 10
    else acc) 100
  max 0 score

/-- JavaScript `String(n).padStart(4, '0')`. -/
def padStart4 (s : String) : String :=
  String.mk (List.replicate (4 - s.length) '0') ++ s

/-- The rake id format `RAKE-<year>-<number padded to 4>`. -/
def mkRakeId (year rakeNumber : Int) : String :=
  "RAKE-" ++ toString year ++ "-" ++ padStart4 (toString rakeNumber)

/-- The `wagonTypeConfig?.costPerKm || 2.5` lookup of `buildRakePlan`: the
fallback is taken exactly when the type is absent from the table (no table
entry has `costPerKm = 0`, so `||` never replaces a real value). -/
def wagonCostPerKmOf (wagonType : String) : Rat :=
  match WAGON_TYPES wagonType with
  | some spec => spec.costPerKm
  | none => 2.5

/-- The exact (un-rounded) values of the seven cost components computed by
`buildRakePlan` for given parameters, in breakdown order. -/
def exactCostComponents (now : Int) (p : BuildParams) : List Rat :=
  let distance := getDistance p.stockyard p.destination
  let baseFreight := COSTS_baseRakeCharge
  let distanceCost := (p.wagonCount : Rat) * wagonCostPerKmOf p.wagonType * distance * COSTS_distanceMultiplier
  let loadingCost := p.totalTonnage * COSTS_loadingCostPerTonne
  let loadingHours : Int := Int.ceil (p.totalTonnage / 1000 * 2)
  let demurrage :=
    if loadingHours > 24 then ((loadingHours : Rat) - 24) * COSTS_demurragePerHour else 0
  let penalty := penaltyOf now p.orders
  let idleFreight :=
    if p.utilization < 0.75 then COSTS_idleFreightPerDay * (1 - p.utilization) else 0
  let priorityPremium :=
    (baseFreight + distanceCost) *
      (COSTS_priorityPremium (priorityLevelOfAvg (avgPriorityOf p.orders)) - 1)
  [baseFreight, distanceCost, loadingCost, demurrage, penalty, idleFreight, priorityPremium]

/-- The plan record produced by `buildRakePlan` once its defensive checks
have passed.

Both call sites pass a single destination string, so `destinations` is the
one-element list and the multi-destination average-distance branch reduces
to the plain lookup. -/
def mkRakePlanRecord (now year : Int) (p : BuildParams) : RakePlan :=
  let comps := exactCostComponents now p
  let totalCost := comps.sum
  let loadingHours : Int := Int.ceil (p.totalTonnage / 1000 * 2)
  let costBreakdown : CostBreakdown :=
    ⟨jsRound (comps.getD 0 0), jsRound (comps.getD 1 0), jsRound (comps.getD 2 0),
     jsRound (comps.getD 3 0), jsRound (comps.getD 4 0), jsRound (comps.getD 5 0),
     jsRound (comps.getD 6 0), jsRound totalCost⟩
  let priorityScore :=
    avgPriorityOf p.orders * WEIGHTS_priority + p.utilization * WEIGHTS_utilization -
      totalCost / 100000 * WEIGHTS_cost
  { rakeId := mkRakeId year p.rakeNumber
    orders := p.orders
    totalTonnage := p.totalTonnage
    wagonType := p.wagonType
    wagonCount := p.wagonCount
    utilization := roundTo2 p.utilization
    cost := jsRound totalCost
    costBreakdown := costBreakdown
    priorityScore := roundTo2 priorityScore
    originStockyard := p.stockyard
    destinations := [p.destination]
    loadingPoint := p.loadingPoint
    estimatedDispatchTime := now + loadingHours * 3600000
    slaComplianceScore := calculateSLACompliance now p.orders
    multiDestination := decide ([p.destination].length > 1) }

/-- The `buildRakePlan` method of the deep-cloning optimizer: the four
defensive throws (modelled as `Except.error`), then the plan record with the
8-component cost model.  `isFinite(loadingHours)` always holds over `Rat`. -/
def buildRakePlan (now year : Int) (p : BuildParams) : Except String RakePlan :=
  let distance := getDistance p.stockyard p.destination
  if p.wagonCount ≤ 0 then .error "Wagon count must be positive"
  else if distance < 0 then .error "Distance cannot be negative"
  else if p.totalTonnage ≤ 0 then .error "Total tonnage must be positive"
  else if Int.ceil (p.totalTonnage / 1000 * 2) < 0 then .error "Invalid loading hours calculation"
  else .ok (mkRakePlanRecord now year p)

/-- The packing loop of `createRakePlansForGroup` (the `while` loop).  `fuel`
is the group's length: every continuing iteration removes at least one
remaining order, so the fuel never runs out before the loop's own exit
conditions fire. -/
def groupLoop (now year : Int) (loadingPoints : List LoadingPoint)
    (productName destination wagonType : String) (wagonCapacity : Rat) :
    Nat → Int → List Order → Pools → Except String (List RakePlan × Pools)
  | 0, _, _, st => .ok ([], st)
  | fuel + 1, rakeNumber, remaining, st =>
    if remaining.isEmpty then .ok ([], st)
    else
      let sel := selectOrdersForRake remaining wagonCapacity
      let selectedOrders := sel.1
      let totalTonnage := sel.2
      if selectedOrders.isEmpty then .ok ([], st)
      else
        let stockyardOpt := findBestStockyard productName totalTonnage st.inventory
        let loadingPointOpt := findBestLoadingPoint productName stockyardOpt loadingPoints
        match stockyardOpt, loadingPointOpt with
        | some stockyard, some loadingPoint =>
          let wagonCount : Int := min (Int.ceil (totalTonnage / wagonCapacity)) RAKE_maxWagons
          if wagonCount < RAKE_minWagons then .ok ([], st)
          else if ¬ checkWagonAvailability wagonType wagonCount st.wagons then .ok ([], st)
          else
            let utilization := totalTonnage / ((wagonCount : Rat) * wagonCapacity)
            if utilization ≥ RAKE_minUtilization then do
              let plan ← buildRakePlan now year
                ⟨rakeNumber, selectedOrders, totalTonnage, wagonType, wagonCount, utilization,
                 stockyard, destination, loadingPoint, productName⟩
              let st' := consumeWagons wagonType wagonCount
                (consumeInventory stockyard productName totalTonnage st)
              let remaining' := remaining.filter
                (fun o => ¬ selectedOrders.any (fun so => so.id = o.id))
              let rest ← groupLoop now year loadingPoints productName destination wagonType
                wagonCapacity fuel (rakeNumber + 1) remaining' st'
              .ok (plan :: rest.1, rest.2)
            else .ok ([], st)
        | _, _ => .ok ([], st)

/-- The `createRakePlansForGroup` method: resolve the group's wagon type and
run the packing loop. -/
def createRakePlansForGroup (now year : Int) (loadingPoints : List LoadingPoint)
    (orders : List Order) (st : Pools) : Except String (List RakePlan × Pools) :=
  match orders with
  | [] => .ok ([], st)
  | o0 :: rest =>
    match selectOptimalWagonType o0.product_name st.wagons with
    | none => .ok ([], st)
    | some wagonType =>
      groupLoop now year loadingPoints o0.product_name o0.destination wagonType
        (getWagonCapacity wagonType) (o0 :: rest).length 1 (o0 :: rest) st

/-- The `createSingleOrderPlan` method (the singleton fallback); its
`rakeNumber` is `Date.now()`. -/
def createSingleOrderPlan (now year : Int) (loadingPoints : List LoadingPoint)
    (o : Order) (st : Pools) : Except String (Option RakePlan × Pools) :=
  if o.tonnage_required < 2000 then .ok (none, st)
  else
    match selectOptimalWagonType o.product_name st.wagons with
    | none => .ok (none, st)
    | some wagonType =>
      let stockyardOpt := findBestStockyard o.product_name o.tonnage_required st.inventory
      let loadingPointOpt := findBestLoadingPoint o.product_name stockyardOpt loadingPoints
      match stockyardOpt, loadingPointOpt with
      | some stockyard, some loadingPoint =>
        let wagonCapacity := getWagonCapacity wagonType
        let wagonCount : Int := min (Int.ceil (o.tonnage_required / wagonCapacity)) RAKE_maxWagons
        if wagonCount < RAKE_minWagons ∨ ¬ checkWagonAvailability wagonType wagonCount st.wagons then
          .ok (none, st)
        else
          let utilization := o.tonnage_required / ((wagonCount : Rat) * wagonCapacity)
          if utilization < RAKE_minUtilization then .ok (none, st)
          else
            let st' := consumeWagons wagonType wagonCount
              (consumeInventory stockyard o.product_name o.tonnage_required st)
            do
              let plan ← buildRakePlan now year
                ⟨now, [o], o.tonnage_required, wagonType, wagonCount, utilization,
                 stockyard, o.destination, loadingPoint, o.product_name⟩
              .ok (some plan, st')
      | _, _ => .ok (none, st)

/-- Sequential processing of the order groups (Step 3 of `optimize`). -/
def runGroups (now year : Int) (loadingPoints : List LoadingPoint) :
    List (List Order) → List RakePlan → Pools → Except String (List RakePlan × Pools)
  | [], plans, st => .ok (plans, st)
  | g :: gs, plans, st => do
    let res ← createRakePlansForGroup now year loadingPoints g st
    runGroups now year loadingPoints gs (plans ++ res.1) res.2

/-- Sequential processing of the remaining ungrouped orders (Step 4 of
`optimize`). -/
def runSingles (now year : Int) (loadingPoints : List LoadingPoint) :
    List Order → List RakePlan → List Order → Pools →
    Except String (List RakePlan × List Order × Pools)
  | [], plans, unfulfilled, st => .ok (plans, unfulfilled, st)
  | o :: os, plans, unfulfilled, st => do
    let res ← createSingleOrderPlan now year loadingPoints o st
    match res.1 with
    | some plan => runSingles now year loadingPoints os (plans ++ [plan]) unfulfilled res.2
    | none => runSingles now year loadingPoints os plans (unfulfilled ++ [o]) res.2

/-- The result returned by `optimize`. -/
structure OptimizationResult where
  rakePlans : List RakePlan
  unfulfilledOrders : List Order
  utilizationRate : Rat
  totalCost : Int
deriving DecidableEq, Repr

deriving instance DecidableEq for Except

/-- The `optimize` method of the deep-cloning `RakeOptimizer`: prioritize,
group, pack each group, fall back to singletons, and aggregate the metrics. -/
def optimize (now year : Int) (orders : List Order) (inventory : List InventoryItem)
    (wagons : List Wagon) (loadingPoints : List LoadingPoint) :
    Except String OptimizationResult := do
  let sortedOrders := prioritizeOrders now orders
  let orderGroups := groupOrders sortedOrders
  let groupRes ← runGroups now year loadingPoints orderGroups [] ⟨inventory, wagons⟩
  let rakePlans := groupRes.1
  let assignedOrderIds := (rakePlans.flatMap (fun plan => plan.orders)).map (fun o => o.id)
  let remainingOrders := sortedOrders.filter (fun o => ¬ assignedOrderIds.contains o.id)
  let singleRes ← runSingles now year loadingPoints remainingOrders rakePlans [] groupRes.2
  let allPlans := singleRes.1
  let unfulfilled := singleRes.2.1
  let totalCost := (allPlans.map (fun plan => plan.cost)).sum
  let totalCapacity :=
    (allPlans.map (fun plan => (plan.wagonCount : Rat) * getWagonCapacity plan.wagonType)).sum
  let totalUtilized := (allPlans.map (fun plan => plan.totalTonnage)).sum
  let utilizationRate := if totalCapacity > 0 then totalUtilized / totalCapacity else 0
  .ok
    { rakePlans := allPlans
      unfulfilledOrders := unfulfilled
      utilizationRate := utilizationRate
      totalCost := totalCost }

/-- Per-order checks of `validateInputs` over the typed model.  The date-parse
and priority-enum checks are vacuous here because `deadline_date` is an
already-parsed timestamp and `priority_level` an enum; a zero tonnage trips
the falsy check exactly like the positivity check. -/
def ValidOrder (o : Order) : Prop :=
  0 < o.tonnage_required ∧ o.tonnage_required ≤ 10000 ∧ o.destination ∈ VALID_CITIES

instance : DecidablePred ValidOrder := fun o => by unfold ValidOrder; infer_instance

/-- Per-row inventory checks of `validateInputs`. -/
def ValidInventoryItem (i : InventoryItem) : Prop :=
  0 ≤ i.tonnage_available ∧ i.stockyard_name ∈ VALID_CITIES

instance : DecidablePred ValidInventoryItem := fun i => by unfold ValidInventoryItem; infer_instance

/-- Per-row wagon checks of `validateInputs`. -/
def ValidWagon (w : Wagon) : Prop :=
  0 ≤ w.available_count ∧ w.available_count ≤ w.total_count ∧ (WAGON_TYPES w.wagon_type).isSome

instance : DecidablePred ValidWagon := fun w => by unfold ValidWagon; infer_instance

/-- Per-row loading-point checks of `validateInputs` (a zero capacity trips
the falsy check exactly like the positivity check). -/
def ValidLoadingPoint (lp : LoadingPoint) : Prop :=
  0 < lp.capacity_tph ∧
    (lp.operational_status = "active" ∨ lp.operational_status = "inactive" ∨
      lp.operational_status = "maintenance")

instance : DecidablePred ValidLoadingPoint := fun lp => by unfold ValidLoadingPoint; infer_instance

/-- The constructor's `validateInputs`, modelled as an acceptance predicate
(the code throws on the first violated check; acceptance means no check
fires). -/
def validateInputs (orders : List Order) (inventory : List InventoryItem)
    (wagons : List Wagon) (loadingPoints : List LoadingPoint) : Bool :=
  decide (orders ≠ [] ∧ (∀ o ∈ orders, ValidOrder o) ∧
    (∀ i ∈ inventory, ValidInventoryItem i) ∧
    wagons ≠ [] ∧ (∀ w ∈ wagons, ValidWagon w) ∧
    (∀ lp ∈ loadingPoints, ValidLoadingPoint lp))

/-- A rake plan as produced by the earlier, non-cloning optimizer version
(single destination, 4-term cost, no breakdown or SLA fields). -/
structure RakePlanV1 where
  rakeId : String
  orders : List Order
  totalTonnage : Rat
  wagonType : String
  wagonCount : Int
  utilization : Rat
  cost : Int
  priorityScore : Rat
  originStockyard : String
  destination : String
  loadingPoint : String
  estimatedDispatchTime : Int
deriving DecidableEq, Repr

/-- The `buildRakePlan` method of the non-cloning optimizer version: the
simple 4-term cost.  Its `WAGON_TYPES[wagonType].costPerKm` access has no
fallback; call sites only ever reach it with a type present in the table
(an absent type would be a JS `NaN`, modelled as 0 here). -/
def buildRakePlanV1 (now year : Int) (p : BuildParams) : RakePlanV1 :=
  let distance := getDistance p.stockyard p.destination
  let costPerKm :=
    match WAGON_TYPES p.wagonType with
    | some spec => spec.costPerKm
    | none => 0
  let baseCost := COSTS_baseRakeCharge
  let tonnageCost := p.totalTonnage * COSTS_perTonneRate
  let distanceCost := distance * COSTS_distanceMultiplier
  let wagonCost := (p.wagonCount : Rat) * costPerKm * distance
  let cost := baseCost + tonnageCost + distanceCost + wagonCost
  let avgPriority := avgPriorityOf p.orders
  let priorityScore :=
    avgPriority * WEIGHTS_priority + p.utilization * WEIGHTS_utilization -
      cost / 100000 * WEIGHTS_cost
  let loadingHours : Int := Int.ceil (p.totalTonnage / 1000 * 2)
  { rakeId := mkRakeId year p.rakeNumber
    orders := p.orders
    totalTonnage := p.totalTonnage
    wagonType := p.wagonType
    wagonCount := p.wagonCount
    utilization := roundTo2 p.utilization
    cost := jsRound cost
    priorityScore := roundTo2 priorityScore
    originStockyard := p.stockyard
    destination := p.destination
    loadingPoint := p.loadingPoint
    estimatedDispatchTime := now + loadingHours * 3600000 }

/-- The packing loop of the non-cloning version's `createRakePlansForGroup`
(identical control flow to `groupLoop`; nothing can throw). -/
def groupLoopV1 (now year : Int) (loadingPoints : List LoadingPoint)
    (productName destination wagonType : String) (wagonCapacity : Rat) :
    Nat → Int → List Order → Pools → List RakePlanV1 × Pools
  | 0, _, _, st => ([], st)
  | fuel + 1, rakeNumber, remaining, st =>
    if remaining.isEmpty then ([], st)
    else
      let sel := selectOrdersForRake remaining wagonCapacity
      let selectedOrders := sel.1
      let totalTonnage := sel.2
      if selectedOrders.isEmpty then ([], st)
      else
        let stockyardOpt := findBestStockyard productName totalTonnage st.inventory
        let loadingPointOpt := findBestLoadingPoint productName stockyardOpt loadingPoints
        match stockyardOpt, loadingPointOpt with
        | some stockyard, some loadingPoint =>
          let wagonCount : Int := min (Int.ceil (totalTonnage / wagonCapacity)) RAKE_maxWagons
          if wagonCount < RAKE_minWagons then ([], st)
          else if ¬ checkWagonAvailability wagonType wagonCount st.wagons then ([], st)
          else
            let utilization := totalTonnage / ((wagonCount : Rat) * wagonCapacity)
            if utilization ≥ RAKE_minUtilization then
              let plan := buildRakePlanV1 now year
                ⟨rakeNumber, selectedOrders, totalTonnage, wagonType, wagonCount, utilization,
                 stockyard, destination, loadingPoint, productName⟩
              let st' := consumeWagons wagonType wagonCount
                (consumeInventory stockyard productName totalTonnage st)
              let remaining' := remaining.filter
                (fun o => ¬ selectedOrders.any (fun so => so.id = o.id))
              let rest := groupLoopV1 now year loadingPoints productName destination wagonType
                wagonCapacity fuel (rakeNumber + 1) remaining' st'
              (plan :: rest.1, rest.2)
            else ([], st)
        | _, _ => ([], st)

/-- The non-cloning version's `createRakePlansForGroup`. -/
def createRakePlansForGroupV1 (now year : Int) (loadingPoints : List LoadingPoint)
    (orders : List Order) (st : Pools) : List RakePlanV1 × Pools :=
  match orders with
  | [] => ([], st)
  | o0 :: rest =>
    match selectOptimalWagonType o0.product_name st.wagons with
    | none => ([], st)
    | some wagonType =>
      groupLoopV1 now year loadingPoints o0.product_name o0.destination wagonType
        (getWagonCapacity wagonType) (o0 :: rest).length 1 (o0 :: rest) st

/-- The non-cloning version's `createSingleOrderPlan`. -/
def createSingleOrderPlanV1 (now year : Int) (loadingPoints : List LoadingPoint)
    (o : Order) (st : Pools) : Option RakePlanV1 × Pools :=
  if o.tonnage_required < 2000 then (none, st)
  else
    match selectOptimalWagonType o.product_name st.wagons with
    | none => (none, st)
    | some wagonType =>
      let stockyardOpt := findBestStockyard o.product_name o.tonnage_required st.inventory
      let loadingPointOpt := findBestLoadingPoint o.product_name stockyardOpt loadingPoints
      match stockyardOpt, loadingPointOpt with
      | some stockyard, some loadingPoint =>
        let wagonCapacity := getWagonCapacity wagonType
        let wagonCount : Int := min (Int.ceil (o.tonnage_required / wagonCapacity)) RAKE_maxWagons
        if wagonCount < RAKE_minWagons ∨ ¬ checkWagonAvailability wagonType wagonCount st.wagons then
          (none, st)
        else
          let utilization := o.tonnage_required / ((wagonCount : Rat) * wagonCapacity)
          if utilization < RAKE_minUtilization then (none, st)
          else
            let st' := consumeWagons wagonType wagonCount
              (consumeInventory stockyard o.product_name o.tonnage_required st)
            let plan := buildRakePlanV1 now year
              ⟨now, [o], o.tonnage_required, wagonType, wagonCount, utilization,
               stockyard, o.destination, loadingPoint, o.product_name⟩
            (some plan, st')
      | _, _ => (none, st)

/-- Group processing of the non-cloning version's `optimize`. -/
def runGroupsV1 (now year : Int) (loadingPoints : List LoadingPoint) :
    List (List Order) → List RakePlanV1 → Pools → List RakePlanV1 × Pools
  | [], plans, st => (plans, st)
  | g :: gs, plans, st =>
    let res := createRakePlansForGroupV1 now year loadingPoints g st
    runGroupsV1 now year loadingPoints gs (plans ++ res.1) res.2

/-- Singleton processing of the non-cloning version's `optimize`. -/
def runSinglesV1 (now year : Int) (loadingPoints : List LoadingPoint) :
    List Order → List RakePlanV1 → List Order → Pools →
    List RakePlanV1 × List Order × Pools
  | [], plans, unfulfilled, st => (plans, unfulfilled, st)
  | o :: os, plans, unfulfilled, st =>
    let res := createSingleOrderPlanV1 now year loadingPoints o st
    match res.1 with
    | some plan => runSinglesV1 now year loadingPoints os (plans ++ [plan]) unfulfilled res.2
    | none => runSinglesV1 now year loadingPoints os plans (unfulfilled ++ [o]) res.2

/-- The result of the non-cloning version's `optimize`. -/
structure OptimizationResultV1 where
  rakePlans : List RakePlanV1
  unfulfilledOrders : List Order
  utilizationRate : Rat
  totalCost : Int
deriving DecidableEq, Repr

/-- The non-cloning `RakeOptimizer`'s `optimize`.  The constructor stores the
caller's arrays by reference, so the `Pools` returned alongside the result is
exactly what the caller's `inventory` and `wagons` arrays hold after the
call (the orders array itself is only read: `prioritizeOrders` sorts a
spread copy). -/
def optimizeV1 (now year : Int) (orders : List Order) (inventory : List InventoryItem)
    (wagons : List Wagon) (loadingPoints : List LoadingPoint) :
    OptimizationResultV1 × Pools :=
  let sortedOrders := prioritizeOrders now orders
  let orderGroups := groupOrders sortedOrders
  let groupRes := runGroupsV1 now year loadingPoints orderGroups [] ⟨inventory, wagons⟩
  let rakePlans := groupRes.1
  let assignedOrderIds := (rakePlans.flatMap (fun plan => plan.orders)).map (fun o => o.id)
  let remainingOrders := sortedOrders.filter (fun o => ¬ assignedOrderIds.contains o.id)
  let singleRes := runSinglesV1 now year loadingPoints remainingOrders rakePlans [] groupRes.2
  let allPlans := singleRes.1
  let unfulfilled := singleRes.2.1
  let totalCost := (allPlans.map (fun plan => plan.cost)).sum
  let totalCapacity :=
    (allPlans.map (fun plan => (plan.wagonCount : Rat) * getWagonCapacity plan.wagonType)).sum
  let totalUtilized := (allPlans.map (fun plan => plan.totalTonnage)).sum
  let utilizationRate := if totalCapacity > 0 then totalUtilized / totalCapacity else 0
  (⟨allPlans, unfulfilled, utilizationRate, totalCost⟩, singleRes.2.2)

/-- Product a plan draws from: the product of its first order (group plans
are product-homogeneous, singleton plans carry one order). -/
def planProduct (p : RakePlan) : String :=
  match p.orders with
  | [] => ""
  | o :: _ => o.product_name

/-- Total tonnage the returned plans drew from one stockyard/product pair. -/
def consumedTonnage (plans : List RakePlan) (sy prod : String) : Rat :=
  ((plans.filter (fun p => p.originStockyard = sy ∧ planProduct p = prod)).map
    (fun p => p.totalTonnage)).sum

/-- Total wagons the returned plans drew from one wagon type. -/
def consumedWagonCount (plans : List RakePlan) (wt : String) : Int :=
  ((plans.filter (fun p => p.wagonType = wt)).map (fun p => p.wagonCount)).sum

/-- Tonnage available for a stockyard/product pair, summed over all matching
inventory rows of a snapshot. -/
def totalAvailable (inventory : List InventoryItem) (sy prod : String) : Rat :=
  ((inventory.filter (fun i => i.stockyard_name = sy ∧ i.product_name = prod)).map
    (fun i => i.tonnage_available)).sum

/-- Availability of the first inventory row of a stockyard/product pair (the
row `consumeInventory` decrements); 0 when no row matches. -/
def invAvail (inventory : List InventoryItem) (sy prod : String) : Rat :=
  match inventory.find? (fun i => i.stockyard_name = sy ∧ i.product_name = prod) with
  | some i => i.tonnage_available
  | none => 0

/-- Availability of the first fleet row of a wagon type (the row
`checkWagonAvailability` reads and `consumeWagons` decrements); 0 when no row
matches. -/
def wagAvail (wagons : List Wagon) (wt : String) : Rat :=
  match wagons.find? (fun w => w.wagon_type = wt) with
  | some w => w.available_count
  | none => 0

/-- A single active loading point compatible with Iron Ore, used by the
concrete scenarios. -/
def lpIron : LoadingPoint := ⟨"LP-1", 1000, ["Iron Ore"], "active"⟩

/-- Ten days in epoch milliseconds: the deadline of the scenario orders when
`now = 0`. -/
def dl10 : Int := 864000000

/-- The order of spec Scenario A: 2500 t of Iron Ore to Mumbai, critical,
deadline ten days out. -/
def orderA : Order := ⟨"ORD-A", "Iron Ore", 2500, .critical, dl10, "Mumbai", "Acme"⟩

/-- Scenario A inventory: 3000 t of Iron Ore at Bhilai. -/
def invA : List InventoryItem := [⟨"Bhilai", "Iron Ore", 3000⟩]

/-- Scenario A wagons: 50 BOXN available. -/
def wagA : List Wagon := [⟨"BOXN", 50, 50⟩]

/-- A plannable 3000 t Iron Ore order (witness scenario). -/
def orderW : Order := ⟨"ORD-W", "Iron Ore", 3000, .critical, dl10, "Mumbai", "Acme"⟩

/-- Witness scenario inventory: 5000 t of Iron Ore at Bhilai. -/
def invW : List InventoryItem := [⟨"Bhilai", "Iron Ore", 5000⟩]

/-- Witness scenario wagons: 100 BOXN available. -/
def wagW : List Wagon := [⟨"BOXN", 100, 100⟩]

/-- A 4000 t Iron Ore order: too large for one rake's capacity but accepted
by the singleton fallback with `wagonCount` clamped to `maxWagons`. -/
def orderBig : Order := ⟨"ORD-B", "Iron Ore", 4000, .critical, dl10, "Mumbai", "Acme"⟩

/-- Two 3000 t Iron Ore orders to different destinations (two groups, two
rakes drawn from the same stockyard/product pair). -/
def ordersC3 : List Order :=
  [⟨"O1", "Iron Ore", 3000, .critical, dl10, "Mumbai", "A"⟩,
   ⟨"O2", "Iron Ore", 3000, .critical, dl10, "Kolkata", "B"⟩]

/-- Duplicate inventory rows for the same (Bhilai, Iron Ore) pair: 100 t and
5000 t.  `findBestStockyard` qualifies the pair via the large row while
`consumeInventory` decrements the small first row. -/
def invC3 : List InventoryItem :=
  [⟨"Bhilai", "Iron Ore", 100⟩, ⟨"Bhilai", "Iron Ore", 5000⟩]

/-- Wagons for the duplicate-inventory scenario: 120 BOXN. -/
def wagC3 : List Wagon := [⟨"BOXN", 120, 120⟩]

/-- A plannable Iron Ore order that shares its id with `oScrap`. -/
def oIronDup : Order := ⟨"DUP", "Iron Ore", 3000, .critical, dl10, "Mumbai", "A"⟩

/-- An order whose product has no entry in the `PRODUCTS` table and whose id
collides with `oIronDup`. -/
def oScrap : Order := ⟨"DUP", "Steel Scrap", 2500, .critical, dl10, "Mumbai", "B"⟩

/-- An order whose product has no entry in the `PRODUCTS` table, with a fresh
id (for the amended C10 statement's witness). -/
def oScrapOk : Order := ⟨"ORD-S", "Steel Scrap", 2500, .critical, dl10, "Mumbai", "B"⟩

/-- All orders carried by a list of plans, in plan order. -/
def plansOrders (plans : List RakePlan) : List Order :=
  plans.flatMap (fun p => p.orders)

/-- The stockyard/product key of an inventory row. -/
def invKeys (inventory : List InventoryItem) : List (String × String) :=
  inventory.map (fun i => (i.stockyard_name, i.product_name))

/-- The wagon types of a fleet list. -/
def wagKeys (wagons : List Wagon) : List String :=
  wagons.map (fun w => w.wagon_type)

/-- Provenance of an accepted plan: it is the `buildRakePlan` record for
parameters that passed every acceptance check both call sites perform
(wagon-count formula and floor, exact utilization formula and floor,
nonempty order list). -/
def PlanProvenance (now year : Int) (plan : RakePlan) : Prop :=
  ∃ p : BuildParams,
    plan = mkRakePlanRecord now year p ∧
    p.wagonCount = min (Int.ceil (p.totalTonnage / getWagonCapacity p.wagonType)) RAKE_maxWagons ∧
    RAKE_minWagons ≤ p.wagonCount ∧
    p.utilization = p.totalTonnage / ((p.wagonCount : Rat) * getWagonCapacity p.wagonType) ∧
    RAKE_minUtilization ≤ p.utilization ∧
    p.orders ≠ []

/-- Strings without a hyphen; every valid city name is hyphen-free, which
makes the `product-destination` group key decomposition unique. -/
def HyphenFree (s : String) : Prop := '-' ∉ s.data

instance : DecidablePred HyphenFree := fun s => by unfold HyphenFree; infer_instance


/-- A zero-valued plan record (list-access default for the scenario results). -/
def dummyPlan : RakePlan :=
  ⟨"", [], 0, "", 0, 0, 0, ⟨0, 0, 0, 0, 0, 0, 0, 0⟩, 0, "", [], "", 0, 0, false⟩

/-- The optimizer result on the 3000 t Iron Ore scenario (one plan of 52
BOXN wagons). -/
def resW : OptimizationResult :=
  ((optimize 0 2025 [orderW] invW wagW [lpIron]).toOption).getD ⟨[], [], 0, 0⟩

/-- The single plan of `resW`. -/
def planW : RakePlan := resW.rakePlans.headD dummyPlan

/-- The optimizer result on the two-order scenario with distinct ids: the
Iron Ore order planned, the Steel Scrap order (no product entry)
unfulfilled. -/
def resS : OptimizationResult :=
  ((optimize 0 2025 [oIronDup, oScrapOk] invW wagW [lpIron]).toOption).getD ⟨[], [], 0, 0⟩

/-- C2 counterexample: on a validated snapshot with a single 4000 t Iron Ore
order, `optimize()` returns one plan whose `wagonCount` is clamped to
`maxWagons = 59`, and `59 × 58.8 = 3469.2 < 4000`: the plan's wagon count
times the per-wagon capacity is below its total tonnage, contradicting the
claimed capacity inequality. -/
theorem C2_counterexample :
    validateInputs [orderBig] invW wagW [lpIron] = true ∧
    (optimize 0 2025 [orderBig] invW wagW [lpIron]).toOption.map
      (fun r => r.rakePlans.map (fun p =>
        (p.wagonCount, p.totalTonnage,
          decide ((p.wagonCount : Rat) * getWagonCapacity p.wagonType < p.totalTonnage)))) =
      some [(59, 4000, true)] := by
  decide!

/-- C3 counterexample: a validated snapshot may contain two inventory rows
for the same (stockyard, product) pair; `findBestStockyard` qualifies the
pair through the large row while `consumeInventory` decrements the first
row, so two rakes of 3000 t each are drawn from a pair holding 5100 t in
total — consumption exceeds the pair's original availability. -/
theorem C3_counterexample :
    validateInputs ordersC3 invC3 wagC3 [lpIron] = true ∧
    totalAvailable invC3 "Bhilai" "Iron Ore" = 5100 ∧
    (optimize 0 2025 ordersC3 invC3 wagC3 [lpIron]).toOption.map
      (fun r => (consumedTonnage r.rakePlans "Bhilai" "Iron Ore",
        decide (consumedTonnage r.rakePlans "Bhilai" "Iron Ore" ≤
          totalAvailable invC3 "Bhilai" "Iron Ore"))) =
      some (6000, false) := by
  decide!

/-- C4 counterexample: on the Scenario A snapshot (2500 t Iron Ore to
Mumbai, 3000 t inventory, 50 BOXN, one active compatible loading point,
validation passing), `optimize()` returns no plan at all and the order
unfulfilled — not the claimed single fulfilling plan. -/
theorem C4_scenarioA_counterexample :
    validateInputs [orderA] invA wagA [lpIron] = true ∧
    (optimize 0 2025 [orderA] invA wagA [lpIron]).toOption.map
      (fun r => (r.rakePlans, r.unfulfilledOrders)) = some ([], [orderA]) := by
  decide!

/-- C4 amended: on the Scenario A input the computed wagon count is
`min(ceil(2500/58.8), 59) = 43`, which is below `minWagons = 50`; the code
has no clamp up to `minWagons`, so both the group pass and the singleton
fallback reject the order and `optimize()` returns zero plans with the order
in `unfulfilledOrders`. -/
theorem C4_scenarioA_amended :
    min (Int.ceil ((2500 : Rat) / getWagonCapacity "BOXN")) RAKE_maxWagons = 43 ∧
    (43 : Int) < RAKE_minWagons ∧
    (optimize 0 2025 [orderA] invA wagA [lpIron]).toOption.map
      (fun r => (r.rakePlans.length, r.unfulfilledOrders.map (fun o => o.id))) =
      some (0, ["ORD-A"]) := by
  decide!

/-- C5 counterexample: the plan built for a 3000 t Iron Ore order stores
`utilization = 0.98`, the two-decimal rounding of the exact ratio
`3000 / (52 × 58.8) = 625/637`, so the reported utilization field does not
equal total tonnage divided by wagon count times capacity. -/
theorem C5_counterexample :
    (optimize 0 2025 [orderW] invW wagW [lpIron]).toOption.map
      (fun r => r.rakePlans.map (fun p =>
        (p.utilization,
          decide (p.utilization =
            p.totalTonnage / ((p.wagonCount : Rat) * getWagonCapacity p.wagonType))))) =
      some [(0.98, false)] := by
  decide!

/-- C8 counterexample: running the non-cloning optimizer version on a
snapshot leaves the caller's arrays holding the decremented pools — the
caller-provided inventory and wagon records are changed in place. -/
theorem C8_frame_counterexample :
    (optimizeV1 0 2025 [orderW] invW wagW [lpIron]).2.inventory ≠ invW ∧
    (optimizeV1 0 2025 [orderW] invW wagW [lpIron]).2.wagons ≠ wagW := by
  decide!

/-- C8 amended, mutation half: after the non-cloning version's `optimize()`,
the caller-visible inventory and wagon rows are exactly the consumed pools
(5000 t − 3000 t and 100 − 52 wagons), while the deep-cloning version works
on private copies so the caller's arrays stay the unchanged snapshot values
by construction. -/
theorem C8_frame_amended :
    (optimizeV1 0 2025 [orderW] invW wagW [lpIron]).2 =
      Pools.mk [⟨"Bhilai", "Iron Ore", 2000⟩] [⟨"BOXN", 48, 100⟩] ∧
    invW = [⟨"Bhilai", "Iron Ore", 5000⟩] ∧ wagW = [⟨"BOXN", 100, 100⟩] := by
  decide!

/-- C10 counterexample: with two orders sharing one id — a plannable Iron
Ore order and an order whose product is absent from the `PRODUCTS` table —
the snapshot passes validation, the Iron Ore order is planned, and the
orphan-product order ends up neither in any plan nor in `unfulfilledOrders`
(the singleton pass drops it because its id is already marked assigned). -/
theorem C10_orphan_product_counterexample :
    validateInputs [oIronDup, oScrap] invW wagW [lpIron] = true ∧
    PRODUCTS oScrap.product_name = none ∧
    (optimize 0 2025 [oIronDup, oScrap] invW wagW [lpIron]).toOption.map
      (fun r => (decide (oScrap ∈ r.unfulfilledOrders),
        decide (r.rakePlans.any (fun p => oScrap ∈ p.orders)),
        r.rakePlans.length)) =
      some (false, false, 1) := by
  decide!

/-- Rounding bounds for `jsRound`: within half a unit of the argument. -/
theorem jsRound_le (q : Rat) : (jsRound q : Rat) ≤ q + 1/2 :=
  Int.floor_le (q + 1/2)

/-- Lower rounding bound for `jsRound`. -/
theorem le_jsRound (q : Rat) : q - 1/2 ≤ (jsRound q : Rat) := by
  have h := Int.sub_one_lt_floor (q + 1/2)
  have : q + 1/2 - 1 = q - 1/2 := by ring
  rw [this] at h
  exact le_of_lt h
  
/-- `jsRound` is monotone with respect to integer lower bounds. -/
theorem jsRound_ge_of_ge (q : Rat) (n : Int) (h : (n : Rat) ≤ q) : n ≤ jsRound q := by
  apply Int.le_floor.mpr
  have : (n : Rat) ≤ q + 1/2 := le_trans h (by linarith)
  exact this

/-- Two-decimal rounding preserves the 0.75 utilization floor. -/
theorem roundTo2_ge_075 (q : Rat) (h : (0.75 : Rat) ≤ q) : (0.75 : Rat) ≤ roundTo2 q := by
  unfold roundTo2
  have h75 : (75 : Int) ≤ jsRound (q * 100) := by
    apply jsRound_ge_of_ge
    push_cast
    linarith
  have hc : ((75 : Int) : Rat) ≤ (jsRound (q * 100) : Rat) := by exact_mod_cast h75
  have h100 : (0 : Rat) < 100 := by norm_num
  rw [le_div_iff₀ h100]
  push_cast at hc ⊢
  linarith

/-- Every wagon-type capacity (including the 60 t default) is positive. -/
theorem getWagonCapacity_pos (wt : String) : 0 < getWagonCapacity wt := by
  unfold getWagonCapacity WAGON_TYPES
  split
  next spec heq =>
    split_ifs at heq <;> (injection heq with h; rw [h.symm]; norm_num)
  next => norm_num

/-- Every distance (matrix entries and the 800 km default) is nonnegative. -/
theorem getDistance_nonneg (a b : String) : 0 ≤ getDistance a b := by
  unfold getDistance DISTANCE_MATRIX
  repeat' split
  all_goals norm_num

/-- A successful `buildRakePlan` returns exactly the plan record for its
parameters. -/
theorem buildRakePlan_ok_elim {now year : Int} {p : BuildParams} {plan : RakePlan}
    (h : buildRakePlan now year p = .ok plan) : plan = mkRakePlanRecord now year p := by
  simp only [buildRakePlan] at h
  split_ifs at h
  injection h with h
  exact h.symm

/-- `buildRakePlan` succeeds whenever the wagon count and tonnage are
positive (the distance and loading-hours guards can then never fire). -/
theorem buildRakePlan_ok_of (now year : Int) (p : BuildParams)
    (hc : 0 < p.wagonCount) (ht : 0 < p.totalTonnage) :
    buildRakePlan now year p = .ok (mkRakePlanRecord now year p) := by
  have hd := getDistance_nonneg p.stockyard p.destination
  have hlh : ¬ (Int.ceil (p.totalTonnage / 1000 * 2) < 0) := by
    have hpos : (0 : Rat) < p.totalTonnage / 1000 * 2 := by positivity
    have := Int.ceil_pos.mpr hpos
    omega
  simp only [buildRakePlan]
  rw [if_neg (by omega), if_neg (by linarith), if_neg (by linarith), if_neg hlh]

/-- Field values of the plan record: the order list. -/
theorem mkRakePlanRecord_orders (now year : Int) (p : BuildParams) :
    (mkRakePlanRecord now year p).orders = p.orders := by
  simp [mkRakePlanRecord]

/-- Field values of the plan record: total tonnage. -/
theorem mkRakePlanRecord_totalTonnage (now year : Int) (p : BuildParams) :
    (mkRakePlanRecord now year p).totalTonnage = p.totalTonnage := by
  simp [mkRakePlanRecord]

/-- Field values of the plan record: wagon type. -/
theorem mkRakePlanRecord_wagonType (now year : Int) (p : BuildParams) :
    (mkRakePlanRecord now year p).wagonType = p.wagonType := by
  simp [mkRakePlanRecord]

/-- Field values of the plan record: wagon count. -/
theorem mkRakePlanRecord_wagonCount (now year : Int) (p : BuildParams) :
    (mkRakePlanRecord now year p).wagonCount = p.wagonCount := by
  simp [mkRakePlanRecord]

/-- Field values of the plan record: the stored utilization is the exact one
rounded to two decimals. -/
theorem mkRakePlanRecord_utilization (now year : Int) (p : BuildParams) :
    (mkRakePlanRecord now year p).utilization = roundTo2 p.utilization := by
  simp [mkRakePlanRecord]

/-- Field values of the plan record: origin stockyard. -/
theorem mkRakePlanRecord_originStockyard (now year : Int) (p : BuildParams) :
    (mkRakePlanRecord now year p).originStockyard = p.stockyard := by
  simp [mkRakePlanRecord]

/-- Field values of the plan record: reported cost is the rounded exact
component sum. -/
theorem mkRakePlanRecord_cost (now year : Int) (p : BuildParams) :
    (mkRakePlanRecord now year p).cost = jsRound (exactCostComponents now p).sum := by
  simp [mkRakePlanRecord]

/-- Field values of the plan record: the full cost breakdown. -/
theorem mkRakePlanRecord_costBreakdown (now year : Int) (p : BuildParams) :
    (mkRakePlanRecord now year p).costBreakdown =
      ⟨jsRound ((exactCostComponents now p).getD 0 0),
       jsRound ((exactCostComponents now p).getD 1 0),
       jsRound ((exactCostComponents now p).getD 2 0),
       jsRound ((exactCostComponents now p).getD 3 0),
       jsRound ((exactCostComponents now p).getD 4 0),
       jsRound ((exactCostComponents now p).getD 5 0),
       jsRound ((exactCostComponents now p).getD 6 0),
       jsRound (exactCostComponents now p).sum⟩ := by
  simp [mkRakePlanRecord]

/-- The exact component list always has seven entries. -/
theorem exactCostComponents_shape (now : Int) (p : BuildParams) :
    ∃ a b c d e f g : Rat, exactCostComponents now p = [a, b, c, d, e, f, g] := by
  exact ⟨_, _, _, _, _, _, _, rfl⟩

/-- Accumulated-rounding bound: summing seven individually rounded values
differs from the rounded exact sum by at most 4 units. -/
theorem jsRound_sum7 (a b c d e f g : Rat) :
    |(jsRound a + jsRound b + jsRound c + jsRound d + jsRound e + jsRound f + jsRound g
      - jsRound (a + b + c + d + e + f + g) : Int)| ≤ 4 := by
  rw [abs_le]
  have ha1 := jsRound_le a; have ha2 := le_jsRound a
  have hb1 := jsRound_le b; have hb2 := le_jsRound b
  have hc1 := jsRound_le c; have hc2 := le_jsRound c
  have hd1 := jsRound_le d; have hd2 := le_jsRound d
  have he1 := jsRound_le e; have he2 := le_jsRound e
  have hf1 := jsRound_le f; have hf2 := le_jsRound f
  have hg1 := jsRound_le g; have hg2 := le_jsRound g
  have hs1 := jsRound_le (a + b + c + d + e + f + g)
  have hs2 := le_jsRound (a + b + c + d + e + f + g)
  constructor
  · have : (-4 : Rat) ≤ (jsRound a + jsRound b + jsRound c + jsRound d + jsRound e + jsRound f
        + jsRound g - jsRound (a + b + c + d + e + f + g) : Int) := by
      push_cast
      linarith
    exact_mod_cast this
  · have : ((jsRound a + jsRound b + jsRound c + jsRound d + jsRound e + jsRound f
        + jsRound g - jsRound (a + b + c + d + e + f + g) : Int) : Rat) ≤ 4 := by
      push_cast
      linarith
    exact_mod_cast this

/-- The greedy fill returns the reversed accumulator followed by a sublist
of the orders it scanned. -/
theorem selectGo_sublist (maxCap tgt : Rat) :
    ∀ (l acc : List Order) (tot : Rat),
      ∃ s, s.Sublist l ∧ (selectGo maxCap tgt acc tot l).1 = acc.reverse ++ s := by
  intro l
  induction l with
  | nil =>
    intro acc tot
    exact ⟨[], List.nil_sublist _, by simp [selectGo]⟩
  | cons o rest ih =>
    intro acc tot
    simp only [selectGo]
    by_cases hfit : tot + o.tonnage_required ≤ maxCap
    · rw [if_pos hfit]
      by_cases htgt : tot + o.tonnage_required ≥ tgt
      · rw [if_pos htgt]
        exact ⟨[o], (List.nil_sublist rest).cons₂ o, by simp⟩
      · rw [if_neg htgt]
        obtain ⟨s, hs, heq⟩ := ih (o :: acc) (tot + o.tonnage_required)
        exact ⟨o :: s, hs.cons₂ o, by simpa using heq⟩
    · rw [if_neg hfit]
      obtain ⟨s, hs, heq⟩ := ih acc tot
      exact ⟨s, hs.cons o, heq⟩

/-- The orders selected for one rake form a sublist of the remaining group
orders. -/
theorem selectOrdersForRake_sublist (orders : List Order) (cap : Rat) :
    (selectOrdersForRake orders cap).1.Sublist orders := by
  obtain ⟨s, hs, heq⟩ := selectGo_sublist ((RAKE_maxWagons : Rat) * cap)
    ((RAKE_idealWagons : Rat) * cap * 0.9) orders [] 0
  simpa [selectOrdersForRake, heq] using hs

/-- Removing (by id) the selected orders keeps the selection plus the rest
within a permutation of a sublist of the original list, even when ids
repeat. -/
theorem sel_filter_subperm (sel remaining : List Order) (hs : sel.Sublist remaining) :
    (sel ++ remaining.filter (fun o => ¬ sel.any (fun so => so.id = o.id))).Subperm
      remaining := by
  rw [List.subperm_ext_iff]
  intro x hx
  rw [List.count_append]
  by_cases hid : sel.any (fun so => so.id = x.id) = true
  · have hnm : x ∉ remaining.filter (fun o => ¬ sel.any (fun so => so.id = o.id)) := by
      intro hmem
      have := (List.mem_filter.mp hmem).2
      simp only [hid] at this
      simp at this
    rw [List.count_eq_zero.mpr hnm, Nat.add_zero]
    exact hs.count_le x
  · have hnm : x ∉ sel := by
      intro hmem
      exact hid (List.any_eq_true.mpr ⟨x, hmem, by simp⟩)
    rw [List.count_eq_zero.mpr hnm, Nat.zero_add]
    exact (List.filter_sublist remaining).count_le x

/-- Updating a row in place preserves any projection the update leaves
untouched. -/
theorem updateFirst_map_eq {α β : Type} (p : α → Bool) (f : α → α) (g : α → β)
    (hg : ∀ x, g (f x) = g x) : ∀ l : List α, (updateFirst p f l).map g = l.map g := by
  intro l
  induction l with
  | nil => rfl
  | cons x xs ih =>
    simp only [updateFirst]
    by_cases hx : p x
    · rw [if_pos hx]
      simp [hg x]
    · rw [if_neg hx]
      simp [ih]

/-- `find?` after `updateFirst` with the same predicate sees the updated
row. -/
theorem find?_updateFirst_same {α : Type} (p : α → Bool) (f : α → α)
    (hp : ∀ x, p (f x) = p x) : ∀ l : List α, (updateFirst p f l).find? p = (l.find? p).map f := by
  intro l
  induction l with
  | nil => rfl
  | cons x xs ih =>
    simp only [updateFirst]
    by_cases hx : p x
    · rw [if_pos hx]
      rw [List.find?_cons_of_pos _ (by rw [hp x]; exact hx), List.find?_cons_of_pos _ hx]
      rfl
    · rw [if_neg hx]
      rw [List.find?_cons_of_neg _ hx, List.find?_cons_of_neg _ hx]
      exact ih

/-- `find?` for a predicate disjoint from the updated one is unchanged by
`updateFirst`. -/
theorem find?_updateFirst_disjoint {α : Type} (p q : α → Bool) (f : α → α)
    (hq : ∀ x, p x = true → (q x = false ∧ q (f x) = false)) :
    ∀ l : List α, (updateFirst p f l).find? q = l.find? q := by
  intro l
  induction l with
  | nil => rfl
  | cons x xs ih =>
    simp only [updateFirst]
    by_cases hx : p x
    · rw [if_pos hx]
      obtain ⟨h1, h2⟩ := hq x hx
      rw [List.find?_cons_of_neg _ (by simp [h2]), List.find?_cons_of_neg _ (by simp [h1])]
    · rw [if_neg hx]
      by_cases hqx : q x
      · rw [List.find?_cons_of_pos _ hqx, List.find?_cons_of_pos _ hqx]
      · rw [List.find?_cons_of_neg _ hqx, List.find?_cons_of_neg _ hqx]
        exact ih

/-- In a list with duplicate-free keys, `find?` by key locates any member
with that key. -/
theorem find?_eq_some_of_key {α κ : Type} [DecidableEq κ] (p : α → Bool) (key : α → κ)
    (k : κ) (hp : ∀ x, p x = true ↔ key x = k) :
    ∀ l : List α, (l.map key).Nodup → ∀ r ∈ l, key r = k → l.find? p = some r := by
  intro l
  induction l with
  | nil => intro _ r hr; exact absurd hr (List.not_mem_nil r)
  | cons x xs ih =>
    intro hn r hr hk
    have hn' := hn
    rw [List.map_cons, List.nodup_cons] at hn'
    by_cases hx : p x
    · rw [List.find?_cons_of_pos _ hx]
      have hkx : key x = k := (hp x).mp hx
      rcases List.mem_cons.mp hr with h | h
      · rw [h]
      · exact absurd (hkx.trans hk.symm ▸ List.mem_map_of_mem key h) hn'.1
    · rw [List.find?_cons_of_neg _ hx]
      have hkx : ¬ key x = k := fun h => hx ((hp x).mpr h)
      rcases List.mem_cons.mp hr with h | h
      · exact absurd (h ▸ hk) hkx
      · exact ih hn'.2 r h hk

/-- Membership of the stable-max fold result. -/
theorem firstMaxBy_mem (f : InventoryItem → Rat) :
    ∀ (xs : List InventoryItem) (x : InventoryItem), firstMaxBy f x xs ∈ x :: xs := by
  intro xs
  induction xs with
  | nil => intro x; simp [firstMaxBy]
  | cons b bs ih =>
    intro x
    simp only [firstMaxBy, List.foldl_cons]
    have h := ih (if f b > f x then b else x)
    simp only [firstMaxBy] at h
    rcases List.mem_cons.mp h with h1 | h1
    · rw [h1]
      by_cases hc : f b > f x
      · simp [hc]
      · simp [hc]
    · exact List.mem_cons.mpr (Or.inr (List.mem_cons.mpr (Or.inr h1)))

/-- A resolved stockyard comes from an inventory row of the product with
enough tonnage. -/
theorem findBestStockyard_spec {pn : String} {T : Rat} {inv : List InventoryItem} {sy : String}
    (h : findBestStockyard pn T inv = some sy) :
    ∃ r ∈ inv, r.stockyard_name = sy ∧ r.product_name = pn ∧ T ≤ r.tonnage_available := by
  unfold findBestStockyard at h
  split at h
  · exact absurd h (by simp)
  next x xs heq =>
    injection h with h
    have hmem : firstMaxBy (fun i => i.tonnage_available) x xs ∈ x :: xs := firstMaxBy_mem _ xs x
    rw [← heq] at hmem
    have hf := List.mem_filter.mp hmem
    have hp := hf.2
    simp only [decide_eq_true_eq] at hp
    exact ⟨_, hf.1, h, hp.1, hp.2⟩

/-- Consumption accounting: empty plan list. -/
theorem consumedTonnage_nil (sy pr : String) : consumedTonnage [] sy pr = 0 := rfl

/-- Consumption accounting: plan cons. -/
theorem consumedTonnage_cons (pl : RakePlan) (plans : List RakePlan) (sy pr : String) :
    consumedTonnage (pl :: plans) sy pr =
      (if pl.originStockyard = sy ∧ planProduct pl = pr then pl.totalTonnage else 0) +
        consumedTonnage plans sy pr := by
  simp only [consumedTonnage, List.filter_cons]
  by_cases hc : pl.originStockyard = sy ∧ planProduct pl = pr
  · rw [if_pos (by simpa using hc), if_pos hc]
    simp
  · rw [if_neg (by simpa using hc), if_neg hc]
    simp

/-- Consumption accounting: append. -/
theorem consumedTonnage_append (p₁ p₂ : List RakePlan) (sy pr : String) :
    consumedTonnage (p₁ ++ p₂) sy pr = consumedTonnage p₁ sy pr + consumedTonnage p₂ sy pr := by
  simp [consumedTonnage, List.filter_append]

/-- Wagon consumption accounting: empty plan list. -/
theorem consumedWagonCount_nil (wt : String) : consumedWagonCount [] wt = 0 := rfl

/-- Wagon consumption accounting: plan cons. -/
theorem consumedWagonCount_cons (pl : RakePlan) (plans : List RakePlan) (wt : String) :
    consumedWagonCount (pl :: plans) wt =
      (if pl.wagonType = wt then pl.wagonCount else 0) + consumedWagonCount plans wt := by
  simp only [consumedWagonCount, List.filter_cons]
  by_cases hc : pl.wagonType = wt
  · rw [if_pos (by simpa using hc), if_pos hc]
    simp
  · rw [if_neg (by simpa using hc), if_neg hc]
    simp

/-- Wagon consumption accounting: append. -/
theorem consumedWagonCount_append (p₁ p₂ : List RakePlan) (wt : String) :
    consumedWagonCount (p₁ ++ p₂) wt = consumedWagonCount p₁ wt + consumedWagonCount p₂ wt := by
  simp [consumedWagonCount, List.filter_append]

/-- `consumeInventory` leaves the wagon pool unchanged. -/
theorem consumeInventory_wagons (sy pr : String) (T : Rat) (st : Pools) :
    (consumeInventory sy pr T st).wagons = st.wagons := rfl

/-- `consumeWagons` leaves the inventory pool unchanged. -/
theorem consumeWagons_inventory (wt : String) (c : Int) (st : Pools) :
    (consumeWagons wt c st).inventory = st.inventory := rfl

/-- Consuming inventory preserves the row keys. -/
theorem invKeys_consumeInventory (sy pr : String) (T : Rat) (st : Pools) :
    invKeys (consumeInventory sy pr T st).inventory = invKeys st.inventory := by
  simp only [invKeys, consumeInventory]
  apply updateFirst_map_eq
  intro x
  rfl

/-- Consuming wagons preserves the fleet types. -/
theorem wagKeys_consumeWagons (wt : String) (c : Int) (st : Pools) :
    wagKeys (consumeWagons wt c st).wagons = wagKeys st.wagons := by
  simp only [wagKeys, consumeWagons]
  apply updateFirst_map_eq
  intro x
  rfl

/-- Consuming decrements the first row of the consumed pair. -/
theorem invAvail_consumeInventory_same (sy pr : String) (T : Rat) (st : Pools)
    (hsome : (st.inventory.find?
      (fun i => i.stockyard_name = sy ∧ i.product_name = pr)).isSome) :
    invAvail (consumeInventory sy pr T st).inventory sy pr = invAvail st.inventory sy pr - T := by
  simp only [invAvail, consumeInventory]
  have hrw := find?_updateFirst_same
    (fun i : InventoryItem => decide (i.stockyard_name = sy ∧ i.product_name = pr))
    (fun i => { i with tonnage_available := i.tonnage_available - T })
    (fun x => rfl) st.inventory
  rw [hrw]
  obtain ⟨i, hi⟩ := Option.isSome_iff_exists.mp hsome
  rw [hi]
  rfl

/-- Consuming leaves every other stockyard/product pair untouched. -/
theorem invAvail_consumeInventory_other (sy pr sy' pr' : String) (T : Rat) (st : Pools)
    (hne : ¬ (sy' = sy ∧ pr' = pr)) :
    invAvail (consumeInventory sy pr T st).inventory sy' pr' = invAvail st.inventory sy' pr' := by
  simp only [invAvail, consumeInventory]
  have hrw := find?_updateFirst_disjoint
    (fun i : InventoryItem => decide (i.stockyard_name = sy ∧ i.product_name = pr))
    (fun i : InventoryItem => decide (i.stockyard_name = sy' ∧ i.product_name = pr'))
    (fun i => { i with tonnage_available := i.tonnage_available - T })
    ?_ st.inventory
  rw [hrw]
  intro x hx
  simp only [decide_eq_true_eq] at hx
  constructor
  · simp only [decide_eq_false_iff_not]
    intro hq
    exact hne ⟨hq.1.symm.trans hx.1, hq.2.symm.trans hx.2⟩
  · simp only [decide_eq_false_iff_not]
    intro hq
    exact hne ⟨hq.1.symm.trans hx.1, hq.2.symm.trans hx.2⟩

/-- Consuming wagons decrements the first fleet row of the type. -/
theorem wagAvail_consumeWagons_same (wt : String) (c : Int) (st : Pools)
    (hsome : (st.wagons.find? (fun w => w.wagon_type = wt)).isSome) :
    wagAvail (consumeWagons wt c st).wagons wt = wagAvail st.wagons wt - (c : Rat) := by
  simp only [wagAvail, consumeWagons]
  have hrw := find?_updateFirst_same
    (fun w : Wagon => decide (w.wagon_type = wt))
    (fun w => { w with available_count := w.available_count - (c : Rat) })
    (fun x => rfl) st.wagons
  rw [hrw]
  obtain ⟨w, hw⟩ := Option.isSome_iff_exists.mp hsome
  rw [hw]
  rfl

/-- Consuming wagons leaves every other type untouched. -/
theorem wagAvail_consumeWagons_other (wt wt' : String) (c : Int) (st : Pools)
    (hne : ¬ wt' = wt) :
    wagAvail (consumeWagons wt c st).wagons wt' = wagAvail st.wagons wt' := by
  simp only [wagAvail, consumeWagons]
  have hrw := find?_updateFirst_disjoint
    (fun w : Wagon => decide (w.wagon_type = wt))
    (fun w : Wagon => decide (w.wagon_type = wt'))
    (fun w => { w with available_count := w.available_count - (c : Rat) })
    ?_ st.wagons
  rw [hrw]
  intro x hx
  simp only [decide_eq_true_eq] at hx
  constructor
  · simp only [decide_eq_false_iff_not]
    intro hq
    exact hne (hq.symm.trans hx)
  · simp only [decide_eq_false_iff_not]
    intro hq
    exact hne (hq.symm.trans hx)

/-- A passing wagon-availability check means the first fleet row of the type
exists and holds at least the requested count. -/
theorem checkWagonAvailability_spec {wt : String} {c : Int} {ws : List Wagon}
    (h : checkWagonAvailability wt c ws = true) :
    (ws.find? (fun w => w.wagon_type = wt)).isSome ∧ (c : Rat) ≤ wagAvail ws wt := by
  unfold checkWagonAvailability at h
  unfold wagAvail
  split at h
  next w hw =>
    rw [hw]
    simp only [decide_eq_true_eq] at h
    exact ⟨by simp, h⟩
  next => exact absurd h (by simp)

/-- Under duplicate-free inventory keys, a resolved stockyard guarantees the
first row of the pair exists and holds the needed tonnage. -/
theorem invAvail_ge_of_findBest {pn : String} {T : Rat} {inv : List InventoryItem} {sy : String}
    (hn : (invKeys inv).Nodup) (h : findBestStockyard pn T inv = some sy) :
    (inv.find? (fun i => i.stockyard_name = sy ∧ i.product_name = pn)).isSome ∧
      T ≤ invAvail inv sy pn := by
  obtain ⟨r, hrmem, hrsy, hrpn, hrT⟩ := findBestStockyard_spec h
  have hfind : inv.find? (fun i => i.stockyard_name = sy ∧ i.product_name = pn) = some r :=
    find?_eq_some_of_key
      (fun i => decide (i.stockyard_name = sy ∧ i.product_name = pn))
      (fun i => (i.stockyard_name, i.product_name)) (sy, pn)
      (by intro x; simp [Prod.ext_iff])
      inv (by simpa [invKeys] using hn) r hrmem
      (by rw [Prod.ext_iff]; exact ⟨hrsy, hrpn⟩)
  refine ⟨by rw [hfind]; rfl, ?_⟩
  unfold invAvail
  rw [hfind]
  exact hrT

/-- Nonnegative inventory rows give nonnegative first-row availability. -/
theorem invAvail_nonneg {inv : List InventoryItem}
    (hv : ∀ i ∈ inv, 0 ≤ i.tonnage_available) (sy pr : String) : 0 ≤ invAvail inv sy pr := by
  unfold invAvail
  split
  next i hi => exact hv i (List.mem_of_find?_eq_some hi)
  next => exact le_refl 0

/-- Nonnegative fleet rows give nonnegative first-row availability. -/
theorem wagAvail_nonneg {ws : List Wagon}
    (hv : ∀ w ∈ ws, 0 ≤ w.available_count) (wt : String) : 0 ≤ wagAvail ws wt := by
  unfold wagAvail
  split
  next w hw => exact hv w (List.mem_of_find?_eq_some hw)
  next => exact le_refl 0

/-- The packing-loop postcondition holds trivially when the loop exits
without accepting a rake. -/
theorem groupLoop_out_trivial (now year : Int) (productName wagonType : String)
    (remaining : List Order) (st : Pools) :
    (plansOrders ([] : List RakePlan)).Subperm remaining ∧
    (∀ pl ∈ ([] : List RakePlan), pl.wagonType = wagonType ∧ pl.orders ≠ [] ∧
      PlanProvenance now year pl) ∧
    ((∀ o ∈ remaining, o.product_name = productName) →
      ∀ pl ∈ ([] : List RakePlan), planProduct pl = productName) ∧
    invKeys st.inventory = invKeys st.inventory ∧
    wagKeys st.wagons = wagKeys st.wagons ∧
    ((invKeys st.inventory).Nodup →
      ∀ sy pr,
        ((∀ o ∈ remaining, o.product_name = productName) →
          invAvail st.inventory sy pr =
            invAvail st.inventory sy pr - consumedTonnage [] sy pr) ∧
        (invAvail st.inventory sy pr = invAvail st.inventory sy pr ∨
          0 ≤ invAvail st.inventory sy pr)) ∧
    (∀ wt, wagAvail st.wagons wt = wagAvail st.wagons wt - (consumedWagonCount [] wt : Rat) ∧
      (wagAvail st.wagons wt = wagAvail st.wagons wt ∨ 0 ≤ wagAvail st.wagons wt)) := by
  refine ⟨by simp [plansOrders], by simp, by simp, rfl, rfl, ?_, ?_⟩
  · intro _ sy pr
    exact ⟨fun _ => by rw [consumedTonnage_nil, sub_zero], Or.inl rfl⟩
  · intro wt
    exact ⟨by rw [consumedWagonCount_nil, Int.cast_zero, sub_zero], Or.inl rfl⟩

/-- The consumed product of a plan with a nonempty order list is the first
order's product. -/
theorem planProduct_eq_head (pl : RakePlan) (o : Order) (os : List Order)
    (h : pl.orders = o :: os) : planProduct pl = o.product_name := by
  unfold planProduct
  rw [h]

set_option maxHeartbeats 1000000 in
/-- Master specification of the packing loop: it always succeeds; the
accepted plans draw their orders from the remaining group orders without
duplication; every accepted plan has full provenance; under
product-homogeneity of the group each plan consumes the group's product; and
the pools change exactly by the consumption the plans record, never below
zero. -/
theorem groupLoop_spec (now year : Int) (lps : List LoadingPoint)
    (productName destination wagonType : String) (wagonCapacity : Rat)
    (hcap : wagonCapacity = getWagonCapacity wagonType) :
    ∀ (fuel : Nat) (rakeNumber : Int) (remaining : List Order) (st : Pools),
      ∃ plans st',
        groupLoop now year lps productName destination wagonType wagonCapacity
          fuel rakeNumber remaining st = .ok (plans, st') ∧
        (plansOrders plans).Subperm remaining ∧
        (∀ pl ∈ plans, pl.wagonType = wagonType ∧ pl.orders ≠ [] ∧
          PlanProvenance now year pl) ∧
        ((∀ o ∈ remaining, o.product_name = productName) →
          ∀ pl ∈ plans, planProduct pl = productName) ∧
        invKeys st'.inventory = invKeys st.inventory ∧
        wagKeys st'.wagons = wagKeys st.wagons ∧
        ((invKeys st.inventory).Nodup →
          ∀ sy pr,
            ((∀ o ∈ remaining, o.product_name = productName) →
              invAvail st'.inventory sy pr =
                invAvail st.inventory sy pr - consumedTonnage plans sy pr) ∧
            (invAvail st'.inventory sy pr = invAvail st.inventory sy pr ∨
              0 ≤ invAvail st'.inventory sy pr)) ∧
        (∀ wt, wagAvail st'.wagons wt = wagAvail st.wagons wt - (consumedWagonCount plans wt : Rat) ∧
          (wagAvail st'.wagons wt = wagAvail st.wagons wt ∨ 0 ≤ wagAvail st'.wagons wt)) := by
  intro fuel
  induction fuel with
  | zero =>
    intro rakeNumber remaining st
    exact ⟨[], st, by simp only [groupLoop],
      groupLoop_out_trivial now year productName wagonType remaining st⟩
  | succ fuel ih =>
    intro rakeNumber remaining st
    simp only [groupLoop]
    by_cases h0 : remaining.isEmpty
    · rw [if_pos h0]
      exact ⟨[], st, rfl, groupLoop_out_trivial now year productName wagonType remaining st⟩
    rw [if_neg h0]
    by_cases h1 : (selectOrdersForRake remaining wagonCapacity).1.isEmpty
    · rw [if_pos h1]
      exact ⟨[], st, rfl, groupLoop_out_trivial now year productName wagonType remaining st⟩
    rw [if_neg h1]
    cases hsy : findBestStockyard productName (selectOrdersForRake remaining wagonCapacity).2
        st.inventory with
    | none =>
      refine ⟨[], st, ?_, groupLoop_out_trivial now year productName wagonType remaining st⟩
      simp only [findBestLoadingPoint]
    | some sy =>
      cases hlp : findBestLoadingPoint productName (some sy) lps with
      | none =>
        exact ⟨[], st, rfl, groupLoop_out_trivial now year productName wagonType remaining st⟩
      | some lp =>
        dsimp only
        set sel := (selectOrdersForRake remaining wagonCapacity).1 with hselDef
        set T := (selectOrdersForRake remaining wagonCapacity).2 with hTDef
        set count := ⌈T / wagonCapacity⌉ ⊓ RAKE_maxWagons with hcountDef
        by_cases h2 : count < RAKE_minWagons
        · rw [if_pos h2]
          exact ⟨[], st, rfl, groupLoop_out_trivial now year productName wagonType remaining st⟩
        rw [if_neg h2]
        by_cases h3 : checkWagonAvailability wagonType count st.wagons = true
        · rw [if_neg (by simp [h3])]
          set u := T / ((count : Rat) * wagonCapacity) with huDef
          by_cases h4 : u ≥ RAKE_minUtilization
          · rw [if_pos h4]
            have hcap_pos : 0 < wagonCapacity := hcap ▸ getWagonCapacity_pos wagonType
            have hcount_pos : 0 < count := by
              simp only [RAKE_minWagons] at h2
              omega
            have hdenom_pos : 0 < ((count : Rat) * wagonCapacity) := by
              have : (0 : Rat) < (count : Rat) := by exact_mod_cast hcount_pos
              positivity
            have hmin_pos : (0 : Rat) < RAKE_minUtilization := by norm_num [RAKE_minUtilization]
            have hT_pos : 0 < T := by
              have h34 : RAKE_minUtilization * ((count : Rat) * wagonCapacity) ≤ T := by
                rw [huDef] at h4
                have hdiv := (le_div_iff₀ hdenom_pos).mp h4
                linarith
              nlinarith
            have hsel_sub : sel.Sublist remaining := by
              rw [hselDef]
              exact selectOrdersForRake_sublist remaining wagonCapacity
            have hsel_ne : sel ≠ [] := by
              intro hc
              rw [hc] at h1
              simp at h1
            obtain ⟨o0, os0, ho0⟩ := List.exists_cons_of_ne_nil hsel_ne
            have hProdHead : (∀ o ∈ remaining, o.product_name = productName) →
                planProduct (mkRakePlanRecord now year
                  ⟨rakeNumber, sel, T, wagonType, count, u, sy, destination, lp, productName⟩) =
                  productName := by
              intro hprod
              have ho0mem : o0 ∈ remaining := hsel_sub.subset (ho0 ▸ List.mem_cons_self o0 os0)
              rw [planProduct_eq_head _ o0 os0 (by rw [mkRakePlanRecord_orders]; exact ho0)]
              exact hprod o0 ho0mem
            have hbuild := buildRakePlan_ok_of now year
              ⟨rakeNumber, sel, T, wagonType, count, u, sy, destination, lp, productName⟩
              hcount_pos hT_pos
            rw [hbuild]
            obtain ⟨plans₂, st'', heq₂, hsub₂, hprov₂, hprodc₂, hikeys₂, hwkeys₂, hinv₂, hwag₂⟩ :=
              ih (rakeNumber + 1)
                (remaining.filter (fun o => ¬ sel.any (fun so => so.id = o.id)))
                (consumeWagons wagonType count (consumeInventory sy productName T st))
            refine ⟨mkRakePlanRecord now year
              ⟨rakeNumber, sel, T, wagonType, count, u, sy, destination, lp, productName⟩ :: plans₂,
              st'', ?_, ?_, ?_, ?_, ?_, ?_, ?_, ?_⟩
            · simp only [Except.bind, bind]
              rw [heq₂]
            · simp only [plansOrders, List.flatMap_cons, mkRakePlanRecord_orders]
              simp only [plansOrders] at hsub₂
              exact ((List.subperm_append_left sel).mpr hsub₂).trans
                (sel_filter_subperm sel remaining hsel_sub)
            · intro pl hpl
              rcases List.mem_cons.mp hpl with h | h
              · rw [h]
                refine ⟨mkRakePlanRecord_wagonType now year _, ?_, ?_⟩
                · rw [mkRakePlanRecord_orders]
                  exact hsel_ne
                · refine ⟨_, rfl, ?_, Int.not_lt.mp h2, ?_, h4, hsel_ne⟩
                  · rw [hcountDef, ← hcap]
                  · rw [huDef, ← hcap]
              · exact hprov₂ pl h
            · intro hprod pl hpl
              rcases List.mem_cons.mp hpl with h | h
              · rw [h]
                exact hProdHead hprod
              · refine hprodc₂ ?_ pl h
                intro o ho
                exact hprod o (List.mem_of_mem_filter ho)
            · rw [hikeys₂, consumeWagons_inventory, invKeys_consumeInventory]
            · rw [hwkeys₂, wagKeys_consumeWagons, consumeInventory_wagons]
            · intro hnodup sy' pr'
              have hkeys1 : invKeys (consumeWagons wagonType count
                  (consumeInventory sy productName T st)).inventory = invKeys st.inventory := by
                rw [consumeWagons_inventory, invKeys_consumeInventory]
              have hnodup1 : (invKeys (consumeWagons wagonType count
                  (consumeInventory sy productName T st)).inventory).Nodup := by
                rw [hkeys1]; exact hnodup
              obtain ⟨hfsome, hTle⟩ := invAvail_ge_of_findBest (by simpa [invKeys] using hnodup) hsy
              obtain ⟨hinvEq₂, hinvDisj₂⟩ := hinv₂ hnodup1 sy' pr'
              have hmid : invAvail (consumeWagons wagonType count
                  (consumeInventory sy productName T st)).inventory sy' pr' =
                  invAvail (consumeInventory sy productName T st).inventory sy' pr' := by
                rw [consumeWagons_inventory]
              by_cases hcase : sy' = sy ∧ pr' = productName
              · have hsame : invAvail (consumeInventory sy productName T st).inventory sy' pr' =
                    invAvail st.inventory sy' pr' - T := by
                  rw [hcase.1, hcase.2]
                  exact invAvail_consumeInventory_same sy productName T st hfsome
                constructor
                · intro hprod
                  have hprodf : ∀ o ∈ remaining.filter
                      (fun o => ¬ sel.any (fun so => so.id = o.id)), o.product_name = productName :=
                    fun o ho => hprod o (List.mem_of_mem_filter ho)
                  rw [hinvEq₂ hprodf, hmid, hsame, consumedTonnage_cons]
                  rw [if_pos ⟨by rw [mkRakePlanRecord_originStockyard]; exact hcase.1.symm,
                    by rw [hProdHead hprod]; exact hcase.2.symm⟩]
                  rw [mkRakePlanRecord_totalTonnage]
                  ring
                · rcases hinvDisj₂ with hl | hr
                  · right
                    rw [hl, hmid, hsame]
                    have h0le : 0 ≤ invAvail st.inventory sy' pr' - T := by
                      rw [hcase.1, hcase.2]
                      linarith
                    exact h0le
                  · exact Or.inr hr
              · have hsame : invAvail (consumeInventory sy productName T st).inventory sy' pr' =
                    invAvail st.inventory sy' pr' :=
                  invAvail_consumeInventory_other sy productName sy' pr' T st hcase
                constructor
                · intro hprod
                  have hprodf : ∀ o ∈ remaining.filter
                      (fun o => ¬ sel.any (fun so => so.id = o.id)), o.product_name = productName :=
                    fun o ho => hprod o (List.mem_of_mem_filter ho)
                  rw [hinvEq₂ hprodf, hmid, hsame, consumedTonnage_cons]
                  rw [if_neg ?_]
                  · ring_nf
                  · intro hcon
                    apply hcase
                    refine ⟨?_, ?_⟩
                    · rw [mkRakePlanRecord_originStockyard] at hcon
                      exact hcon.1.symm
                    · rw [hProdHead hprod] at hcon
                      exact hcon.2.symm
                · rcases hinvDisj₂ with hl | hr
                  · left
                    rw [hl, hmid, hsame]
                  · exact Or.inr hr
            · intro wt'
              obtain ⟨hwsome, hcle⟩ := checkWagonAvailability_spec h3
              obtain ⟨hwagEq₂, hwagDisj₂⟩ := hwag₂ wt'
              have hwsome' : ((consumeInventory sy productName T st).wagons.find?
                  (fun w => w.wagon_type = wagonType)).isSome := by
                rw [consumeInventory_wagons]; exact hwsome
              by_cases hcase : wt' = wagonType
              · have hsame : wagAvail (consumeWagons wagonType count
                    (consumeInventory sy productName T st)).wagons wt' =
                    wagAvail st.wagons wt' - (count : Rat) := by
                  rw [hcase]
                  have := wagAvail_consumeWagons_same wagonType count
                    (consumeInventory sy productName T st) hwsome'
                  rw [consumeInventory_wagons] at this
                  exact this
                constructor
                · rw [hwagEq₂, hsame, consumedWagonCount_cons]
                  rw [if_pos (by rw [mkRakePlanRecord_wagonType]; exact hcase.symm)]
                  rw [mkRakePlanRecord_wagonCount]
                  push_cast
                  ring
                · rcases hwagDisj₂ with hl | hr
                  · right
                    rw [hl, hsame, hcase]
                    linarith
                  · exact Or.inr hr
              · have hsame : wagAvail (consumeWagons wagonType count
                    (consumeInventory sy productName T st)).wagons wt' =
                    wagAvail st.wagons wt' := by
                  have := wagAvail_consumeWagons_other wagonType wt' count
                    (consumeInventory sy productName T st) hcase
                  rw [consumeInventory_wagons] at this
                  exact this
                constructor
                · rw [hwagEq₂, hsame, consumedWagonCount_cons]
                  rw [if_neg (by rw [mkRakePlanRecord_wagonType]; intro hcon; exact hcase hcon.symm)]
                  push_cast
                  ring
                · rcases hwagDisj₂ with hl | hr
                  · left
                    rw [hl, hsame]
                  · exact Or.inr hr
          · rw [if_neg h4]
            exact ⟨[], st, rfl, groupLoop_out_trivial now year productName wagonType remaining st⟩
        · rw [if_pos (by simp [h3])]
          exact ⟨[], st, rfl, groupLoop_out_trivial now year productName wagonType remaining st⟩

theorem selectOptimalWagonType_products {pn : String} {ws : List Wagon} {wt : String}
    (h : selectOptimalWagonType pn ws = some wt) : (PRODUCTS pn).isSome := by
  unfold selectOptimalWagonType at h
  split at h
  · exact absurd h (by simp)
  next cfg heq => simp [heq]

theorem group_spec_out_trivial (now year : Int) (g : List Order) (st : Pools) :
    (plansOrders ([] : List RakePlan)).Subperm g ∧
    (∀ pl ∈ ([] : List RakePlan), pl.orders ≠ [] ∧ PlanProvenance now year pl) ∧
    (∀ o0 rest, g = o0 :: rest →
      (∀ o ∈ g, o.product_name = o0.product_name) →
      (∀ pl ∈ ([] : List RakePlan), planProduct pl = o0.product_name) ∧
      (∀ pl ∈ ([] : List RakePlan), ∀ o ∈ pl.orders, (PRODUCTS o.product_name).isSome)) ∧
    invKeys st.inventory = invKeys st.inventory ∧
    wagKeys st.wagons = wagKeys st.wagons ∧
    ((invKeys st.inventory).Nodup →
      ∀ sy pr,
        ((∀ o0 rest, g = o0 :: rest → ∀ o ∈ g, o.product_name = o0.product_name) →
          invAvail st.inventory sy pr =
            invAvail st.inventory sy pr - consumedTonnage [] sy pr) ∧
        (invAvail st.inventory sy pr = invAvail st.inventory sy pr ∨
          0 ≤ invAvail st.inventory sy pr)) ∧
    (∀ wt, wagAvail st.wagons wt = wagAvail st.wagons wt - (consumedWagonCount [] wt : Rat) ∧
      (wagAvail st.wagons wt = wagAvail st.wagons wt ∨ 0 ≤ wagAvail st.wagons wt)) := by
  refine ⟨by simp [plansOrders], by simp, by simp, rfl, rfl, ?_, ?_⟩
  · intro _ sy pr
    exact ⟨fun _ => by rw [consumedTonnage_nil, sub_zero], Or.inl rfl⟩
  · intro wt
    exact ⟨by rw [consumedWagonCount_nil, Int.cast_zero, sub_zero], Or.inl rfl⟩

theorem createRakePlansForGroup_spec (now year : Int) (lps : List LoadingPoint)
    (g : List Order) (st : Pools) :
    ∃ plans st',
      createRakePlansForGroup now year lps g st = .ok (plans, st') ∧
      (plansOrders plans).Subperm g ∧
      (∀ pl ∈ plans, pl.orders ≠ [] ∧ PlanProvenance now year pl) ∧
      (∀ o0 rest, g = o0 :: rest →
        (∀ o ∈ g, o.product_name = o0.product_name) →
        (∀ pl ∈ plans, planProduct pl = o0.product_name) ∧
        (∀ pl ∈ plans, ∀ o ∈ pl.orders, (PRODUCTS o.product_name).isSome)) ∧
      invKeys st'.inventory = invKeys st.inventory ∧
      wagKeys st'.wagons = wagKeys st.wagons ∧
      ((invKeys st.inventory).Nodup →
        ∀ sy pr,
          ((∀ o0 rest, g = o0 :: rest → ∀ o ∈ g, o.product_name = o0.product_name) →
            invAvail st'.inventory sy pr =
              invAvail st.inventory sy pr - consumedTonnage plans sy pr) ∧
          (invAvail st'.inventory sy pr = invAvail st.inventory sy pr ∨
            0 ≤ invAvail st'.inventory sy pr)) ∧
      (∀ wt, wagAvail st'.wagons wt = wagAvail st.wagons wt - (consumedWagonCount plans wt : Rat) ∧
        (wagAvail st'.wagons wt = wagAvail st.wagons wt ∨ 0 ≤ wagAvail st'.wagons wt)) := by
  match g with
  | [] =>
    exact ⟨[], st, by simp only [createRakePlansForGroup],
      group_spec_out_trivial now year [] st⟩
  | o0 :: rest =>
    simp only [createRakePlansForGroup]
    cases hwt : selectOptimalWagonType o0.product_name st.wagons with
    | none =>
      exact ⟨[], st, rfl, group_spec_out_trivial now year (o0 :: rest) st⟩
    | some wagonType =>
      obtain ⟨plans, st', heq, hsub, hprov, hprodc, hikeys, hwkeys, hinv, hwag⟩ :=
        groupLoop_spec now year lps o0.product_name o0.destination wagonType
          (getWagonCapacity wagonType) rfl (o0 :: rest).length 1 (o0 :: rest) st
      refine ⟨plans, st', heq, hsub, ?_, ?_, hikeys, hwkeys, ?_, hwag⟩
      · intro pl hpl
        obtain ⟨_, hne, hpp⟩ := hprov pl hpl
        exact ⟨hne, hpp⟩
      · intro o0' rest' hg hhom
        injection hg with h1 h2
        subst h1
        subst h2
        have hpp : ∀ pl ∈ plans, planProduct pl = o0.product_name :=
          hprodc hhom
        refine ⟨hpp, ?_⟩
        intro pl hpl o ho
        have homem : o ∈ plansOrders plans := by
          simp only [plansOrders, List.mem_flatMap]
          exact ⟨pl, hpl, ho⟩
        have hog : o ∈ o0 :: rest := hsub.subset homem
        rw [hhom o hog]
        exact selectOptimalWagonType_products hwt
      · intro hnodup sy pr
        obtain ⟨hEq, hDisj⟩ := hinv hnodup sy pr
        refine ⟨?_, hDisj⟩
        intro hhomAll
        exact hEq (hhomAll o0 rest rfl)

set_option maxHeartbeats 1000000 in
theorem createSingleOrderPlan_spec (now year : Int) (lps : List LoadingPoint)
    (o : Order) (st : Pools) :
    ∃ out st',
      createSingleOrderPlan now year lps o st = .ok (out, st') ∧
      ((out = none ∧ st' = st) ∨
        (∃ pl, out = some pl ∧ pl.orders = [o] ∧ PlanProvenance now year pl ∧
          planProduct pl = o.product_name ∧ (PRODUCTS o.product_name).isSome ∧
          invKeys st'.inventory = invKeys st.inventory ∧
          wagKeys st'.wagons = wagKeys st.wagons ∧
          ((invKeys st.inventory).Nodup →
            ∀ sy pr,
              invAvail st'.inventory sy pr =
                invAvail st.inventory sy pr - consumedTonnage [pl] sy pr ∧
              (invAvail st'.inventory sy pr = invAvail st.inventory sy pr ∨
                0 ≤ invAvail st'.inventory sy pr)) ∧
          (∀ wt, wagAvail st'.wagons wt =
              wagAvail st.wagons wt - (consumedWagonCount [pl] wt : Rat) ∧
            (wagAvail st'.wagons wt = wagAvail st.wagons wt ∨
              0 ≤ wagAvail st'.wagons wt)))) := by
  simp only [createSingleOrderPlan]
  by_cases h0 : o.tonnage_required < 2000
  · rw [if_pos h0]
    exact ⟨none, st, rfl, Or.inl ⟨rfl, rfl⟩⟩
  rw [if_neg h0]
  cases hwt : selectOptimalWagonType o.product_name st.wagons with
  | none => exact ⟨none, st, rfl, Or.inl ⟨rfl, rfl⟩⟩
  | some wagonType =>
    cases hsy : findBestStockyard o.product_name o.tonnage_required st.inventory with
    | none =>
      refine ⟨none, st, ?_, Or.inl ⟨rfl, rfl⟩⟩
      simp only [findBestLoadingPoint]
    | some sy =>
      cases hlp : findBestLoadingPoint o.product_name (some sy) lps with
      | none => exact ⟨none, st, rfl, Or.inl ⟨rfl, rfl⟩⟩
      | some lp =>
        dsimp only
        set count := ⌈o.tonnage_required / getWagonCapacity wagonType⌉ ⊓ RAKE_maxWagons
          with hcountDef
        by_cases h2 : count < RAKE_minWagons ∨
            ¬ checkWagonAvailability wagonType count st.wagons = true
        · rw [if_pos h2]
          exact ⟨none, st, rfl, Or.inl ⟨rfl, rfl⟩⟩
        rw [if_neg h2]
        push_neg at h2
        obtain ⟨h2a, h3⟩ := h2
        set u := o.tonnage_required / ((count : Rat) * getWagonCapacity wagonType) with huDef
        by_cases h4 : u < RAKE_minUtilization
        · rw [if_pos h4]
          exact ⟨none, st, rfl, Or.inl ⟨rfl, rfl⟩⟩
        rw [if_neg h4]
        have hcount_pos : 0 < count := by
          simp only [RAKE_minWagons] at h2a
          omega
        have hT_pos : 0 < o.tonnage_required := by
          simp only [not_lt] at h0
          linarith
        have hbuild := buildRakePlan_ok_of now year
          ⟨now, [o], o.tonnage_required, wagonType, count, u, sy, o.destination, lp,
            o.product_name⟩ hcount_pos hT_pos
        rw [hbuild]
        simp only [Except.bind, bind]
        refine ⟨some (mkRakePlanRecord now year
          ⟨now, [o], o.tonnage_required, wagonType, count, u, sy, o.destination, lp,
            o.product_name⟩), _, rfl, Or.inr ⟨_, rfl, mkRakePlanRecord_orders now year _, ?_, ?_,
          selectOptimalWagonType_products hwt, ?_, ?_, ?_, ?_⟩⟩
        · exact ⟨_, rfl, rfl, h2a, rfl, not_lt.mp h4, by simp⟩
        · exact planProduct_eq_head _ o [] (mkRakePlanRecord_orders now year _)
        · rw [consumeWagons_inventory, invKeys_consumeInventory]
        · rw [wagKeys_consumeWagons, consumeInventory_wagons]
        · intro hnodup sy' pr'
          obtain ⟨hfsome, hTle⟩ :=
            invAvail_ge_of_findBest (by simpa [invKeys] using hnodup) hsy
          have hmid : invAvail (consumeWagons wagonType count
              (consumeInventory sy o.product_name o.tonnage_required st)).inventory sy' pr' =
              invAvail (consumeInventory sy o.product_name o.tonnage_required st).inventory
                sy' pr' := by
            rw [consumeWagons_inventory]
          by_cases hcase : sy' = sy ∧ pr' = o.product_name
          · have hsame : invAvail (consumeInventory sy o.product_name o.tonnage_required
                st).inventory sy' pr' = invAvail st.inventory sy' pr' - o.tonnage_required := by
              rw [hcase.1, hcase.2]
              exact invAvail_consumeInventory_same sy o.product_name o.tonnage_required st hfsome
            constructor
            · rw [hmid, hsame, consumedTonnage_cons, consumedTonnage_nil]
              rw [if_pos ⟨by rw [mkRakePlanRecord_originStockyard]; exact hcase.1.symm,
                by rw [planProduct_eq_head _ o [] (mkRakePlanRecord_orders now year _)]
                   exact hcase.2.symm⟩]
              rw [mkRakePlanRecord_totalTonnage]
              ring
            · right
              rw [hmid, hsame, hcase.1, hcase.2]
              linarith
          · have hsame : invAvail (consumeInventory sy o.product_name o.tonnage_required
                st).inventory sy' pr' = invAvail st.inventory sy' pr' :=
              invAvail_consumeInventory_other sy o.product_name sy' pr' o.tonnage_required st hcase
            constructor
            · rw [hmid, hsame, consumedTonnage_cons, consumedTonnage_nil]
              rw [if_neg ?_]
              · ring_nf
              · intro hcon
                apply hcase
                constructor
                · rw [mkRakePlanRecord_originStockyard] at hcon
                  exact hcon.1.symm
                · rw [planProduct_eq_head _ o [] (mkRakePlanRecord_orders now year _)] at hcon
                  exact hcon.2.symm
            · left
              rw [hmid, hsame]
        · intro wt'
          obtain ⟨hwsome, hcle⟩ := checkWagonAvailability_spec h3
          have hwsome' : ((consumeInventory sy o.product_name o.tonnage_required st).wagons.find?
              (fun w => w.wagon_type = wagonType)).isSome := by
            rw [consumeInventory_wagons]
            exact hwsome
          by_cases hcase : wt' = wagonType
          · have hsame : wagAvail (consumeWagons wagonType count
                (consumeInventory sy o.product_name o.tonnage_required st)).wagons wt' =
                wagAvail st.wagons wt' - (count : Rat) := by
              rw [hcase]
              have := wagAvail_consumeWagons_same wagonType count
                (consumeInventory sy o.product_name o.tonnage_required st) hwsome'
              rw [consumeInventory_wagons] at this
              exact this
            constructor
            · rw [hsame, consumedWagonCount_cons, consumedWagonCount_nil]
              rw [if_pos (by rw [mkRakePlanRecord_wagonType]; exact hcase.symm)]
              rw [mkRakePlanRecord_wagonCount]
              push_cast
              ring
            · right
              rw [hsame, hcase]
              linarith
          · have hsame : wagAvail (consumeWagons wagonType count
                (consumeInventory sy o.product_name o.tonnage_required st)).wagons wt' =
                wagAvail st.wagons wt' := by
              have := wagAvail_consumeWagons_other wagonType wt' count
                (consumeInventory sy o.product_name o.tonnage_required st) hcase
              rw [consumeInventory_wagons] at this
              exact this
            constructor
            · rw [hsame, consumedWagonCount_cons, consumedWagonCount_nil]
              rw [if_neg (by rw [mkRakePlanRecord_wagonType]; intro hcon; exact hcase hcon.symm)]
              push_cast
              ring
            · left
              rw [hsame]

theorem Subperm_append_both {α : Type} {a b c d : List α} (h1 : a.Subperm c) (h2 : b.Subperm d) :
    (a ++ b).Subperm (c ++ d) := by
  have s1 : (a ++ b).Subperm (a ++ d) := (List.subperm_append_left a).mpr h2
  have s2 : (a ++ d).Subperm (c ++ d) := (List.subperm_append_right d).mpr h1
  exact s1.trans s2

theorem avail_disj_trans {a b c : Rat} (h1 : b = a ∨ 0 ≤ b) (h2 : c = b ∨ 0 ≤ c) :
    c = a ∨ 0 ≤ c := by
  rcases h2 with h2 | h2
  · rcases h1 with h1 | h1
    · exact Or.inl (h2.trans h1)
    · exact Or.inr (h2 ▸ h1)
  · exact Or.inr h2

theorem subperm_nil_eq_nil {α : Type} {l : List α} (h : l.Subperm []) : l = [] := by
  have hl := h.length_le
  simp at hl
  exact hl

set_option maxHeartbeats 1000000 in
theorem runGroups_spec (now year : Int) (lps : List LoadingPoint) :
    ∀ (gs : List (List Order)) (acc : List RakePlan) (st : Pools),
      ∃ plans st',
        runGroups now year lps gs acc st = .ok (plans, st') ∧
        ∃ newPlans, plans = acc ++ newPlans ∧
          (plansOrders newPlans).Subperm gs.join ∧
          (∀ pl ∈ newPlans, pl.orders ≠ [] ∧ PlanProvenance now year pl) ∧
          ((∀ g ∈ gs, ∀ o0 rest, g = o0 :: rest → ∀ o ∈ g, o.product_name = o0.product_name) →
            ∀ pl ∈ newPlans, ∀ o ∈ pl.orders, (PRODUCTS o.product_name).isSome) ∧
          invKeys st'.inventory = invKeys st.inventory ∧
          wagKeys st'.wagons = wagKeys st.wagons ∧
          ((invKeys st.inventory).Nodup →
            ∀ sy pr,
              ((∀ g ∈ gs, ∀ o0 rest, g = o0 :: rest →
                  ∀ o ∈ g, o.product_name = o0.product_name) →
                invAvail st'.inventory sy pr =
                  invAvail st.inventory sy pr - consumedTonnage newPlans sy pr) ∧
              (invAvail st'.inventory sy pr = invAvail st.inventory sy pr ∨
                0 ≤ invAvail st'.inventory sy pr)) ∧
          (∀ wt, wagAvail st'.wagons wt =
              wagAvail st.wagons wt - (consumedWagonCount newPlans wt : Rat) ∧
            (wagAvail st'.wagons wt = wagAvail st.wagons wt ∨ 0 ≤ wagAvail st'.wagons wt)) := by
  intro gs
  induction gs with
  | nil =>
    intro acc st
    refine ⟨acc, st, by simp only [runGroups], [], by simp, by simp [plansOrders], by simp,
      by simp, rfl, rfl, ?_, ?_⟩
    · intro _ sy pr
      exact ⟨fun _ => by rw [consumedTonnage_nil, sub_zero], Or.inl rfl⟩
    · intro wt
      exact ⟨by rw [consumedWagonCount_nil, Int.cast_zero, sub_zero], Or.inl rfl⟩
  | cons g gs ih =>
    intro acc st
    obtain ⟨plansG, stG, heqG, hsubG, hprovG, hprodG, hikeysG, hwkeysG, hinvG, hwagG⟩ :=
      createRakePlansForGroup_spec now year lps g st
    obtain ⟨plans, st'', heq2, newPlans₂, hplans2, hsub2, hprov2, hprod2, hikeys2, hwkeys2,
      hinv2, hwag2⟩ := ih (acc ++ plansG) stG
    refine ⟨plans, st'', ?_, plansG ++ newPlans₂, by rw [hplans2, List.append_assoc], ?_, ?_,
      ?_, ?_, ?_, ?_, ?_⟩
    · simp only [runGroups, heqG, Except.bind, bind]
      exact heq2
    · simp only [plansOrders, List.flatMap_append, List.join_cons]
      simp only [plansOrders] at hsubG hsub2
      exact Subperm_append_both hsubG hsub2
    · intro pl hpl
      rcases List.mem_append.mp hpl with h | h
      · exact hprovG pl h
      · exact hprov2 pl h
    · intro hhom pl hpl o ho
      rcases List.mem_append.mp hpl with h | h
      · cases g with
        | nil =>
          have hempty : plansOrders plansG = [] := subperm_nil_eq_nil hsubG
          have homem : o ∈ plansOrders plansG := by
            simp only [plansOrders, List.mem_flatMap]
            exact ⟨pl, h, ho⟩
          rw [hempty] at homem
          exact absurd homem (List.not_mem_nil o)
        | cons o0 rest =>
          exact (hprodG o0 rest rfl
            (hhom (o0 :: rest) (List.mem_cons_self _ _) o0 rest rfl)).2 pl h o ho
      · exact hprod2 (fun g' hg' => hhom g' (List.mem_cons_of_mem _ hg')) pl h o ho
    · rw [hikeys2, hikeysG]
    · rw [hwkeys2, hwkeysG]
    · intro hnodup sy pr
      have hnodupG : (invKeys stG.inventory).Nodup := by rw [hikeysG]; exact hnodup
      obtain ⟨hEqG, hDisjG⟩ := hinvG hnodup sy pr
      obtain ⟨hEq2, hDisj2⟩ := hinv2 hnodupG sy pr
      constructor
      · intro hhom
        rw [hEq2 (fun g' hg' => hhom g' (List.mem_cons_of_mem g hg')),
          hEqG (hhom g (List.mem_cons_self g gs)), consumedTonnage_append]
        ring
      · exact avail_disj_trans hDisjG hDisj2
    · intro wt
      obtain ⟨hEqG, hDisjG⟩ := hwagG wt
      obtain ⟨hEq2, hDisj2⟩ := hwag2 wt
      constructor
      · rw [hEq2, hEqG, consumedWagonCount_append]
        push_cast
        ring
      · exact avail_disj_trans hDisjG hDisj2

set_option maxHeartbeats 1000000 in
theorem runSingles_spec (now year : Int) (lps : List LoadingPoint) :
    ∀ (os : List Order) (plans : List RakePlan) (unfulfilled : List Order) (st : Pools),
      ∃ plansF unfF stF,
        runSingles now year lps os plans unfulfilled st = .ok (plansF, unfF, stF) ∧
        ∃ newPlans newUnf,
          plansF = plans ++ newPlans ∧ unfF = unfulfilled ++ newUnf ∧
          (plansOrders newPlans ++ newUnf).Perm os ∧
          (∀ pl ∈ newPlans, pl.orders ≠ [] ∧ PlanProvenance now year pl ∧
            ∀ o ∈ pl.orders, (PRODUCTS o.product_name).isSome) ∧
          invKeys stF.inventory = invKeys st.inventory ∧
          wagKeys stF.wagons = wagKeys st.wagons ∧
          ((invKeys st.inventory).Nodup →
            ∀ sy pr,
              invAvail stF.inventory sy pr =
                invAvail st.inventory sy pr - consumedTonnage newPlans sy pr ∧
              (invAvail stF.inventory sy pr = invAvail st.inventory sy pr ∨
                0 ≤ invAvail stF.inventory sy pr)) ∧
          (∀ wt, wagAvail stF.wagons wt =
              wagAvail st.wagons wt - (consumedWagonCount newPlans wt : Rat) ∧
            (wagAvail stF.wagons wt = wagAvail st.wagons wt ∨ 0 ≤ wagAvail stF.wagons wt)) := by
  intro os
  induction os with
  | nil =>
    intro plans unfulfilled st
    refine ⟨plans, unfulfilled, st, by simp only [runSingles], [], [], by simp, by simp,
      by simp [plansOrders], by simp, rfl, rfl, ?_, ?_⟩
    · intro _ sy pr
      exact ⟨by rw [consumedTonnage_nil, sub_zero], Or.inl rfl⟩
    · intro wt
      exact ⟨by rw [consumedWagonCount_nil, Int.cast_zero, sub_zero], Or.inl rfl⟩
  | cons o os ih =>
    intro plans unfulfilled st
    obtain ⟨out, stO, heqO, hcases⟩ := createSingleOrderPlan_spec now year lps o st
    rcases hcases with ⟨hnone, hstO⟩ | ⟨pl, hsome, hplo, hprov, hplprod, hprodSome, hikeysO,
        hwkeysO, hinvO, hwagO⟩
    · subst hstO
      obtain ⟨plansF, unfF, stF, heq2, newPlans₂, newUnf₂, hp2, hu2, hperm2, hprov2, hikeys2,
        hwkeys2, hinv2, hwag2⟩ := ih plans (unfulfilled ++ [o]) stO
      refine ⟨plansF, unfF, stF, ?_, newPlans₂, o :: newUnf₂, hp2, by rw [hu2, List.append_assoc]; rfl,
        ?_, hprov2, hikeys2, hwkeys2, hinv2, hwag2⟩
      · simp only [runSingles, heqO, hnone, Except.bind, bind]
        exact heq2
      · have h1 : (plansOrders newPlans₂ ++ (o :: newUnf₂)).Perm
            (o :: (plansOrders newPlans₂ ++ newUnf₂)) := List.perm_middle
        exact h1.trans (hperm2.cons o)
    · subst hsome
      obtain ⟨plansF, unfF, stF, heq2, newPlans₂, newUnf₂, hp2, hu2, hperm2, hprov2, hikeys2,
        hwkeys2, hinv2, hwag2⟩ := ih (plans ++ [pl]) unfulfilled stO
      refine ⟨plansF, unfF, stF, ?_, pl :: newPlans₂, newUnf₂,
        by rw [hp2, List.append_assoc]; rfl, hu2, ?_, ?_, ?_, ?_, ?_, ?_⟩
      · simp only [runSingles, heqO, Except.bind, bind]
        exact heq2
      · simp only [plansOrders, List.flatMap_cons, hplo]
        simp only [plansOrders] at hperm2
        have h1 : ([o] ++ (newPlans₂.flatMap (fun p => p.orders))) ++ newUnf₂ =
            o :: ((newPlans₂.flatMap (fun p => p.orders)) ++ newUnf₂) := by simp
        rw [h1]
        exact hperm2.cons o
      · intro pl' hpl'
        rcases List.mem_cons.mp hpl' with h | h
        · subst h
          refine ⟨by rw [hplo]; simp, hprov, ?_⟩
          intro o' ho'
          rw [hplo] at ho'
          rcases List.mem_singleton.mp ho' with h
          rw [h]
          exact hprodSome
        · exact hprov2 pl' h
      · rw [hikeys2, hikeysO]
      · rw [hwkeys2, hwkeysO]
      · intro hnodup sy pr
        have hnodupO : (invKeys stO.inventory).Nodup := by rw [hikeysO]; exact hnodup
        obtain ⟨hEqO, hDisjO⟩ := hinvO hnodup sy pr
        obtain ⟨hEq2, hDisj2⟩ := hinv2 hnodupO sy pr
        constructor
        · rw [hEq2, hEqO, consumedTonnage_cons]
          rw [consumedTonnage_cons, consumedTonnage_nil] at *
          ring_nf
        · exact avail_disj_trans hDisjO hDisj2
      · intro wt
        obtain ⟨hEqO, hDisjO⟩ := hwagO wt
        obtain ⟨hEq2, hDisj2⟩ := hwag2 wt
        constructor
        · rw [hEq2, hEqO, consumedWagonCount_cons]
          rw [consumedWagonCount_cons, consumedWagonCount_nil] at *
          push_cast
          ring_nf
        · exact avail_disj_trans hDisjO hDisj2

theorem flatten_sublist {α : Type} {l₁ l₂ : List (List α)} (h : l₁.Sublist l₂) :
    l₁.flatten.Sublist l₂.flatten := by
  induction h with
  | slnil => exact List.Sublist.refl _
  | cons g _ ih =>
    rename_i l₁' l₂'
    simp only [List.flatten_cons]
    exact ih.trans ((List.nil_sublist _).append (List.Sublist.refl _))
  | cons₂ g _ ih =>
    rename_i l₁' l₂'
    simp only [List.flatten_cons]
    exact (List.Sublist.refl _).append ih

open List in
theorem addToGroups_join_perm (gs : List (String × List Order)) (o : Order) :
    ((addToGroups gs o).map Prod.snd).flatten.Perm
      ((gs.map Prod.snd).flatten ++ [o]) := by
  induction gs with
  | nil => simp [addToGroups]
  | cons p rest ih =>
    obtain ⟨k, os⟩ := p
    simp only [addToGroups]
    by_cases hk : k = groupKey o
    · rw [if_pos hk]
      simp only [List.map_cons, List.flatten_cons]
      calc (os ++ [o]) ++ (rest.map Prod.snd).flatten
          = os ++ ([o] ++ (rest.map Prod.snd).flatten) := by rw [List.append_assoc]
        _ ~ os ++ ((rest.map Prod.snd).flatten ++ [o]) :=
            List.Perm.append_left os List.perm_append_comm
        _ = (os ++ (rest.map Prod.snd).flatten) ++ [o] := by rw [List.append_assoc]
    · rw [if_neg hk]
      simp only [List.map_cons, List.flatten_cons]
      calc os ++ ((addToGroups rest o).map Prod.snd).flatten
          ~ os ++ ((rest.map Prod.snd).flatten ++ [o]) := (ih.append_left os)
        _ = (os ++ (rest.map Prod.snd).flatten) ++ [o] := by rw [List.append_assoc]

open List in
theorem foldl_addToGroups_join_perm (l : List Order) :
    ∀ gs : List (String × List Order),
      ((l.foldl addToGroups gs).map Prod.snd).flatten.Perm
        ((gs.map Prod.snd).flatten ++ l) := by
  induction l with
  | nil => intro gs; simp
  | cons o rest ih =>
    intro gs
    simp only [List.foldl_cons]
    calc ((rest.foldl addToGroups (addToGroups gs o)).map Prod.snd).flatten
        ~ (((addToGroups gs o).map Prod.snd).flatten ++ rest) := ih (addToGroups gs o)
      _ ~ (((gs.map Prod.snd).flatten ++ [o]) ++ rest) :=
          (addToGroups_join_perm gs o).append_right rest
      _ = (gs.map Prod.snd).flatten ++ (o :: rest) := by simp

theorem groupOrders_join_subperm (l : List Order) :
    (groupOrders l).flatten.Subperm l := by
  unfold groupOrders
  have hsub : ((((l.foldl addToGroups []).map Prod.snd).filter
      (fun g => sumTonnage g ≥ 2000))).Sublist ((l.foldl addToGroups []).map Prod.snd) :=
    List.filter_sublist _
  have hperm := foldl_addToGroups_join_perm l []
  simp only [List.map_nil, List.flatten_nil, List.nil_append] at hperm
  exact ((flatten_sublist hsub).subperm).trans hperm.subperm

theorem addToGroups_key (gs : List (String × List Order)) (o : Order)
    (hgs : ∀ p ∈ gs, ∀ o' ∈ p.2, groupKey o' = p.1) :
    ∀ p ∈ addToGroups gs o, ∀ o' ∈ p.2, groupKey o' = p.1 := by
  induction gs with
  | nil =>
    intro p hp o' ho'
    simp only [addToGroups, List.mem_singleton] at hp
    subst hp
    simp only [List.mem_singleton] at ho'
    subst ho'
    rfl
  | cons q rest ih =>
    obtain ⟨k, os⟩ := q
    intro p hp o' ho'
    simp only [addToGroups] at hp
    by_cases hk : k = groupKey o
    · rw [if_pos hk] at hp
      rcases List.mem_cons.mp hp with h | h
      · subst h
        simp only at ho'
        rcases List.mem_append.mp ho' with h' | h'
        · exact hgs (k, os) (List.mem_cons_self _ _) o' h'
        · rw [List.mem_singleton.mp h']
          exact hk.symm
      · exact hgs p (List.mem_cons_of_mem _ h) o' ho'
    · rw [if_neg hk] at hp
      rcases List.mem_cons.mp hp with h | h
      · subst h
        exact hgs (k, os) (List.mem_cons_self _ _) o' ho'
      · exact ih (fun q hq => hgs q (List.mem_cons_of_mem _ hq)) p h o' ho'

theorem foldl_addToGroups_key (l : List Order) :
    ∀ gs : List (String × List Order),
      (∀ p ∈ gs, ∀ o' ∈ p.2, groupKey o' = p.1) →
      ∀ p ∈ l.foldl addToGroups gs, ∀ o' ∈ p.2, groupKey o' = p.1 := by
  induction l with
  | nil => intro gs hgs; exact hgs
  | cons o rest ih =>
    intro gs hgs
    simp only [List.foldl_cons]
    exact ih (addToGroups gs o) (addToGroups_key gs o hgs)

theorem groupOrders_same_key (l : List Order) :
    ∀ g ∈ groupOrders l, ∀ o₁ ∈ g, ∀ o₂ ∈ g, groupKey o₁ = groupKey o₂ := by
  intro g hg o₁ h₁ o₂ h₂
  unfold groupOrders at hg
  have hg' := List.mem_of_mem_filter hg
  rw [List.mem_map] at hg'
  obtain ⟨p, hp, hps⟩ := hg'
  have hkey := foldl_addToGroups_key l [] (by simp) p hp
  rw [(hkey o₁ (hps ▸ h₁)), (hkey o₂ (hps ▸ h₂))]

theorem groupOrders_mem_subset {l : List Order} {g : List Order} (hg : g ∈ groupOrders l) :
    ∀ o ∈ g, o ∈ l := by
  intro o ho
  have : o ∈ (groupOrders l).flatten := List.mem_flatten.mpr ⟨g, hg, ho⟩
  exact (groupOrders_join_subperm l).subset this

theorem chars_split_unique :
    ∀ (a₁ a₂ b₁ b₂ : List Char), '-' ∉ a₁ → '-' ∉ a₂ →
      a₁ ++ '-' :: b₁ = a₂ ++ '-' :: b₂ → a₁ = a₂ ∧ b₁ = b₂ := by
  intro a₁
  induction a₁ with
  | nil =>
    intro a₂ b₁ b₂ _ h₂ he
    cases a₂ with
    | nil =>
      simp only [List.nil_append] at he
      injection he with _ h
      exact ⟨rfl, h⟩
    | cons c a₂' =>
      simp only [List.nil_append, List.cons_append] at he
      injection he with hc _
      exact absurd (by rw [← hc]; exact List.mem_cons_self _ _) h₂
  | cons c a₁' ih =>
    intro a₂ b₁ b₂ h₁ h₂ he
    cases a₂ with
    | nil =>
      simp only [List.cons_append, List.nil_append] at he
      injection he with hc _
      exact absurd (by rw [hc]; exact List.mem_cons_self _ _) h₁
    | cons d a₂' =>
      simp only [List.cons_append] at he
      injection he with hcd he'
      have h₁' : '-' ∉ a₁' := fun h => h₁ (List.mem_cons_of_mem c h)
      have h₂' : '-' ∉ a₂' := fun h => h₂ (List.mem_cons_of_mem d h)
      obtain ⟨ha, hb⟩ := ih a₂' b₁ b₂ h₁' h₂' he'
      exact ⟨by rw [hcd, ha], hb⟩

theorem groupKey_data (o : Order) :
    (groupKey o).data = o.product_name.data ++ '-' :: o.destination.data := by
  unfold groupKey
  simp

theorem same_key_same_product {o₁ o₂ : Order}
    (hd₁ : HyphenFree o₁.destination) (hd₂ : HyphenFree o₂.destination)
    (hk : groupKey o₁ = groupKey o₂) : o₁.product_name = o₂.product_name := by
  have hdata : (groupKey o₁).data = (groupKey o₂).data := by rw [hk]
  rw [groupKey_data, groupKey_data] at hdata
  have hrev := congrArg List.reverse hdata
  simp only [List.reverse_append, List.reverse_cons] at hrev
  have h₁ : '-' ∉ o₁.destination.data.reverse := by
    intro h
    exact hd₁ (List.mem_reverse.mp h)
  have h₂ : '-' ∉ o₂.destination.data.reverse := by
    intro h
    exact hd₂ (List.mem_reverse.mp h)
  have hrev' : o₁.destination.data.reverse ++ '-' :: o₁.product_name.data.reverse =
      o₂.destination.data.reverse ++ '-' :: o₂.product_name.data.reverse := by
    have e₁ : (o₁.destination.data.reverse ++ ['-']) ++ o₁.product_name.data.reverse =
        o₁.destination.data.reverse ++ '-' :: o₁.product_name.data.reverse := by simp
    have e₂ : (o₂.destination.data.reverse ++ ['-']) ++ o₂.product_name.data.reverse =
        o₂.destination.data.reverse ++ '-' :: o₂.product_name.data.reverse := by simp
    rw [← e₁, ← e₂]
    exact hrev
  obtain ⟨_, hb⟩ := chars_split_unique _ _ _ _ h₁ h₂ hrev'
  have hdata2 : o₁.product_name.data = o₂.product_name.data := by
    have := congrArg List.reverse hb
    simpa using this
  exact String.ext hdata2

theorem valid_cities_hyphenFree : ∀ c ∈ VALID_CITIES, HyphenFree c := by
  decide

open List in
theorem perm_split_by_ids :
    ∀ (sub l : List Order),
      ((l.map (fun o => o.id)).Nodup) →
      (∀ x ∈ sub, x ∈ l) →
      ((sub.map (fun o => o.id)).Nodup) →
      l.Perm (sub ++ l.filter (fun o => decide (o.id ∉ sub.map (fun x => x.id)))) := by
  intro sub
  induction sub with
  | nil =>
    intro l _ _ _
    have hf : l.filter (fun o => decide (o.id ∉ ([] : List Order).map (fun x => x.id))) = l := by
      apply List.filter_eq_self.mpr
      intro x _
      simp
    rw [hf, List.nil_append]
  | cons s sub ih =>
    intro l hn hsub hsn
    have hs_mem : s ∈ l := hsub s (List.mem_cons_self _ _)
    have hperm1 : l ~ s :: l.erase s := List.perm_cons_erase hs_mem
    have hmap_perm : l.map (fun o => o.id) ~ (s :: l.erase s).map (fun o => o.id) :=
      hperm1.map _
    have hn' := (hmap_perm.nodup_iff).mp hn
    simp only [List.map_cons, List.nodup_cons] at hn'
    obtain ⟨hsid_not, hn_erase⟩ := hn'
    simp only [List.map_cons, List.nodup_cons] at hsn
    obtain ⟨hsid_sub, hsn'⟩ := hsn
    have hsub' : ∀ x ∈ sub, x ∈ l.erase s := by
      intro x hx
      have hxl : x ∈ l := hsub x (List.mem_cons_of_mem s hx)
      have hxid : x.id ∈ sub.map (fun o => o.id) := List.mem_map_of_mem _ hx
      have hxs : x ≠ s := by
        intro hcon
        rw [hcon] at hxid
        exact hsid_sub hxid
      exact List.mem_erase_of_ne hxs |>.mpr hxl
    have ihe := ih (l.erase s) hn_erase hsub' hsn'
    have hstep1 : l ~ (s :: sub) ++
        (l.erase s).filter (fun o => decide (o.id ∉ sub.map (fun x => x.id))) := by
      calc l ~ s :: l.erase s := hperm1
        _ ~ s :: (sub ++ (l.erase s).filter
            (fun o => decide (o.id ∉ sub.map (fun x => x.id)))) := ihe.cons s
        _ = (s :: sub) ++ (l.erase s).filter
            (fun o => decide (o.id ∉ sub.map (fun x => x.id))) := rfl
    have hfilters : (l.filter (fun o =>
        decide (o.id ∉ (s :: sub).map (fun x => x.id)))).Perm
        ((l.erase s).filter (fun o => decide (o.id ∉ sub.map (fun x => x.id)))) := by
      calc l.filter (fun o => decide (o.id ∉ (s :: sub).map (fun x => x.id)))
          ~ (s :: l.erase s).filter (fun o => decide (o.id ∉ (s :: sub).map (fun x => x.id))) :=
            hperm1.filter _
        _ = (l.erase s).filter (fun o => decide (o.id ∉ (s :: sub).map (fun x => x.id))) := by
            rw [List.filter_cons]
            rw [if_neg (by simp)]
        _ = (l.erase s).filter (fun o => decide (o.id ∉ sub.map (fun x => x.id))) := by
            apply List.filter_congr
            intro x hx
            have hxid : x.id ∈ (l.erase s).map (fun o => o.id) := List.mem_map_of_mem _ hx
            have hxs : x.id ≠ s.id := by
              intro hcon
              rw [← hcon] at hsid_not
              exact hsid_not hxid
            simp [hxs]
    exact hstep1.trans (List.Perm.append_left (s :: sub) hfilters.symm)

theorem subperm_map {α β : Type} (f : α → β) {l₁ l₂ : List α} (h : l₁.Subperm l₂) :
    (l₁.map f).Subperm (l₂.map f) := by
  obtain ⟨l, hp, hs⟩ := h
  exact ⟨l.map f, hp.map f, hs.map f⟩

theorem nodup_of_subperm {α : Type} {l₁ l₂ : List α} (h : l₁.Subperm l₂) (hn : l₂.Nodup) :
    l₁.Nodup := by
  obtain ⟨l, hp, hs⟩ := h
  exact hp.nodup_iff.mp (hn.sublist hs)

theorem prioritizeOrders_perm (now : Int) (orders : List Order) :
    (prioritizeOrders now orders).Perm orders :=
  List.perm_insertionSort _ orders

set_option maxHeartbeats 1600000 in
theorem optimize_spec (now year : Int) (orders : List Order) (inventory : List InventoryItem)
    (wagons : List Wagon) (lps : List LoadingPoint) :
    ∃ r, optimize now year orders inventory wagons lps = .ok r ∧
      ∃ groupPlans singlePlans newUnf,
        r.rakePlans = groupPlans ++ singlePlans ∧
        r.unfulfilledOrders = newUnf ∧
        (∀ pl ∈ r.rakePlans, pl.orders ≠ [] ∧ PlanProvenance now year pl) ∧
        (plansOrders groupPlans).Subperm (groupOrders (prioritizeOrders now orders)).flatten ∧
        ((∀ g ∈ groupOrders (prioritizeOrders now orders), ∀ o0 rest, g = o0 :: rest →
            ∀ o ∈ g, o.product_name = o0.product_name) →
          ∀ pl ∈ groupPlans, ∀ o ∈ pl.orders, (PRODUCTS o.product_name).isSome) ∧
        (∀ pl ∈ singlePlans, ∀ o ∈ pl.orders, (PRODUCTS o.product_name).isSome) ∧
        (plansOrders singlePlans ++ newUnf).Perm
          ((prioritizeOrders now orders).filter (fun o =>
            ¬ ((groupPlans.flatMap (fun p => p.orders)).map (fun o => o.id)).contains o.id)) ∧
        ((invKeys inventory).Nodup →
          ∀ sy pr,
            ((∀ g ∈ groupOrders (prioritizeOrders now orders), ∀ o0 rest, g = o0 :: rest →
                ∀ o ∈ g, o.product_name = o0.product_name) →
              consumedTonnage r.rakePlans sy pr = 0 ∨
                0 ≤ invAvail inventory sy pr - consumedTonnage r.rakePlans sy pr)) ∧
        (∀ wt, consumedWagonCount r.rakePlans wt = 0 ∨
          (0 : Rat) ≤ wagAvail wagons wt - (consumedWagonCount r.rakePlans wt : Rat)) := by
  obtain ⟨plansGF, stG, heqG, newPlansG, haccG, hsubG, hprovG, hprodG, hikeysG, hwkeysG,
    hinvG, hwagG⟩ :=
    runGroups_spec now year lps (groupOrders (prioritizeOrders now orders)) []
      ⟨inventory, wagons⟩
  simp only [List.nil_append] at haccG
  subst haccG
  obtain ⟨plansF, unfF, stF, heqS, newPlansS, newUnfS, hpS, huS, hpermS, hprovS, hikeysS,
    hwkeysS, hinvS, hwagS⟩ :=
    runSingles_spec now year lps
      ((prioritizeOrders now orders).filter (fun o =>
        ¬ ((plansGF.flatMap (fun plan => plan.orders)).map (fun o => o.id)).contains o.id))
      plansGF [] stG
  simp only [List.nil_append] at huS
  subst huS
  subst hpS
  refine ⟨⟨plansGF ++ newPlansS, unfF, ?_, ?_⟩, ?_, plansGF, newPlansS, unfF, rfl, rfl,
    ?_, hsubG, ?_, ?_, hpermS, ?_, ?_⟩
  · exact (if ((plansGF ++ newPlansS).map
      (fun plan => (plan.wagonCount : Rat) * getWagonCapacity plan.wagonType)).sum > 0 then
      ((plansGF ++ newPlansS).map (fun plan => plan.totalTonnage)).sum /
        ((plansGF ++ newPlansS).map
          (fun plan => (plan.wagonCount : Rat) * getWagonCapacity plan.wagonType)).sum
      else 0)
  · exact ((plansGF ++ newPlansS).map (fun plan => plan.cost)).sum
  · simp only [optimize, heqG, Except.bind, bind, heqS]
  · intro pl hpl
    rcases List.mem_append.mp hpl with h | h
    · exact hprovG pl h
    · obtain ⟨hne, hprov, _⟩ := hprovS pl h
      exact ⟨hne, hprov⟩
  · exact hprodG
  · intro pl hpl
    exact (hprovS pl hpl).2.2
  · intro hnodup sy pr hhom
    have hnodupG : (invKeys stG.inventory).Nodup := by
      rw [hikeysG]
      exact hnodup
    obtain ⟨hEqG, hDisjG⟩ := hinvG hnodup sy pr
    obtain ⟨hEqS, hDisjS⟩ := hinvS hnodupG sy pr
    have hCeq : consumedTonnage (plansGF ++ newPlansS) sy pr =
        consumedTonnage plansGF sy pr + consumedTonnage newPlansS sy pr :=
      consumedTonnage_append _ _ _ _
    rw [hCeq]
    have hG := hEqG hhom
    rcases hDisjS with hS | hS
    · rcases hDisjG with hG' | hG'
      · left
        have h1 : consumedTonnage plansGF sy pr = 0 := by
          rw [hG] at hG'
          linarith
        have h2 : consumedTonnage newPlansS sy pr = 0 := by
          rw [hEqS] at hS
          linarith
        rw [h1, h2]
        ring
      · right
        rw [hEqS, hG] at hS
        linarith [hS]
    · right
      rw [hEqS, hG] at hS
      linarith
  · intro wt
    obtain ⟨hEqG, hDisjG⟩ := hwagG wt
    obtain ⟨hEqS, hDisjS⟩ := hwagS wt
    have hCeq : consumedWagonCount (plansGF ++ newPlansS) wt =
        consumedWagonCount plansGF wt + consumedWagonCount newPlansS wt :=
      consumedWagonCount_append _ _ _
    rw [hCeq]
    rcases hDisjS with hS | hS
    · rcases hDisjG with hG' | hG'
      · left
        have h1 : (consumedWagonCount plansGF wt : Rat) = 0 := by
          rw [hEqG] at hG'
          linarith
        have h2 : (consumedWagonCount newPlansS wt : Rat) = 0 := by
          rw [hEqS] at hS
          linarith
        have h1' : consumedWagonCount plansGF wt = 0 := by exact_mod_cast h1
        have h2' : consumedWagonCount newPlansS wt = 0 := by exact_mod_cast h2
        rw [h1', h2']
        rfl
      · right
        rw [hEqS, hEqG] at hS
        push_cast
        push_cast at hS
        linarith
    · right
      rw [hEqS, hEqG] at hS
      push_cast
      push_cast at hS
      linarith

/-- Unpacking the acceptance predicate of `validateInputs`. -/
theorem validateInputs_spec {orders : List Order} {inventory : List InventoryItem}
    {wagons : List Wagon} {lps : List LoadingPoint}
    (h : validateInputs orders inventory wagons lps = true) :
    orders ≠ [] ∧ (∀ o ∈ orders, ValidOrder o) ∧
    (∀ i ∈ inventory, ValidInventoryItem i) ∧
    wagons ≠ [] ∧ (∀ w ∈ wagons, ValidWagon w) ∧
    (∀ lp ∈ lps, ValidLoadingPoint lp) := by
  unfold validateInputs at h
  exact of_decide_eq_true h

/-- On validated orders every group produced by `groupOrders` is
product-homogeneous: group keys agree inside a group, valid destinations are
hyphen-free city names, so the `product-destination` key determines the
product. -/
theorem groups_homog_of_valid (now : Int) {orders : List Order}
    (hval : ∀ o ∈ orders, ValidOrder o) :
    ∀ g ∈ groupOrders (prioritizeOrders now orders), ∀ o0 rest, g = o0 :: rest →
      ∀ o ∈ g, o.product_name = o0.product_name := by
  intro g hg o0 rest hcons o ho
  have hmem : ∀ x ∈ g, x ∈ orders := fun x hx =>
    (prioritizeOrders_perm now orders).subset (groupOrders_mem_subset hg x hx)
  have h0 : o0 ∈ g := by rw [hcons]; exact List.mem_cons_self _ _
  have hd : HyphenFree o.destination :=
    valid_cities_hyphenFree _ ((hval o (hmem o ho)).2.2)
  have hd0 : HyphenFree o0.destination :=
    valid_cities_hyphenFree _ ((hval o0 (hmem o0 h0)).2.2)
  exact same_key_same_product hd hd0 (groupOrders_same_key _ g hg o ho o0 h0)

/-- `plansOrders` distributes over appending plan lists. -/
theorem plansOrders_append (p₁ p₂ : List RakePlan) :
    plansOrders (p₁ ++ p₂) = plansOrders p₁ ++ plansOrders p₂ := by
  unfold plansOrders
  exact List.flatMap_append ..

/-- The wagon-count formula `min(ceil(T / cap), maxWagons)` covers the lesser
of the tonnage and the largest rake's capacity. -/
theorem wagon_capacity_of_formula {T cap : Rat} {c : Int}
    (hcap : 0 < cap) (hc : c = min (Int.ceil (T / cap)) RAKE_maxWagons) :
    min T ((RAKE_maxWagons : Rat) * cap) ≤ (c : Rat) * cap := by
  rcases le_total (Int.ceil (T / cap)) RAKE_maxWagons with hle | hge
  · rw [hc, min_eq_left hle]
    have h1 : T / cap ≤ (Int.ceil (T / cap) : Rat) := Int.le_ceil _
    have h2 : T ≤ (Int.ceil (T / cap) : Rat) * cap := by
      have h3 := mul_le_mul_of_nonneg_right h1 (le_of_lt hcap)
      rwa [div_mul_cancel₀ T (ne_of_gt hcap)] at h3
    exact le_trans (min_le_left _ _) h2
  · rw [hc, min_eq_right hge]
    exact min_le_right _ _

/-- A utilization at or above the floor zeroes the idle-freight component. -/
theorem exactCostComponents_idle (now : Int) (p : BuildParams)
    (h : RAKE_minUtilization ≤ p.utilization) :
    (exactCostComponents now p).getD 5 0 = 0 := by
  unfold RAKE_minUtilization at h
  simp only [exactCostComponents, List.getD_cons_succ, List.getD_cons_zero]
  rw [if_neg (not_lt.mpr h)]

/-- Rounding zero gives zero. -/
theorem jsRound_zero : jsRound 0 = 0 := by
  unfold jsRound
  norm_num

/-- Every plan of a successful run is a guarded `buildRakePlan` record. -/
theorem optimize_plan_provenance (now year : Int) (orders : List Order)
    (inventory : List InventoryItem) (wagons : List Wagon) (lps : List LoadingPoint)
    (r : OptimizationResult)
    (heq : optimize now year orders inventory wagons lps = .ok r) :
    ∀ pl ∈ r.rakePlans, pl.orders ≠ [] ∧ PlanProvenance now year pl := by
  obtain ⟨r', heq', _, _, _, _, _, hprov, _⟩ :=
    optimize_spec now year orders inventory wagons lps
  rw [heq'] at heq
  injection heq with h
  subst h
  exact hprov

open List in
/-- Order accounting of a full run: with distinct order ids, the orders of
the returned plans and the unfulfilled list are together a permutation of
the input orders. -/
theorem optimize_partition (now year : Int) (orders : List Order)
    (inventory : List InventoryItem) (wagons : List Wagon) (lps : List LoadingPoint)
    (r : OptimizationResult)
    (hnodup : (orders.map (fun o => o.id)).Nodup)
    (heq : optimize now year orders inventory wagons lps = .ok r) :
    (plansOrders r.rakePlans ++ r.unfulfilledOrders).Perm orders := by
  obtain ⟨r', heq', groupPlans, singlePlans, newUnf, hrp, hru, hprov, hsubG, hprodG,
    hprodS, hpermS, hinv, hwag⟩ := optimize_spec now year orders inventory wagons lps
  rw [heq'] at heq
  injection heq with h
  subst h
  rw [hrp, hru, plansOrders_append]
  have hsub2 : (plansOrders groupPlans).Subperm (prioritizeOrders now orders) :=
    hsubG.trans (groupOrders_join_subperm _)
  have hn_pri : ((prioritizeOrders now orders).map (fun o => o.id)).Nodup :=
    (((prioritizeOrders_perm now orders).map (fun o => o.id)).nodup_iff).mpr hnodup
  have hsubset : ∀ x ∈ plansOrders groupPlans, x ∈ prioritizeOrders now orders :=
    fun x hx => hsub2.subset hx
  have hsn : ((plansOrders groupPlans).map (fun o => o.id)).Nodup :=
    nodup_of_subperm (subperm_map (fun o => o.id) hsub2) hn_pri
  have hsplit := perm_split_by_ids (plansOrders groupPlans) (prioritizeOrders now orders)
      hn_pri hsubset hsn
  have hfe : (prioritizeOrders now orders).filter (fun o =>
        ¬ ((groupPlans.flatMap (fun p => p.orders)).map (fun o => o.id)).contains o.id) =
      (prioritizeOrders now orders).filter
        (fun o => decide (o.id ∉ (plansOrders groupPlans).map (fun x => x.id))) := by
    apply List.filter_congr
    intro x _
    simp [plansOrders]
  calc (plansOrders groupPlans ++ plansOrders singlePlans) ++ newUnf
      = plansOrders groupPlans ++ (plansOrders singlePlans ++ newUnf) :=
        List.append_assoc _ _ _
    _ ~ plansOrders groupPlans ++ (prioritizeOrders now orders).filter (fun o =>
          ¬ ((groupPlans.flatMap (fun p => p.orders)).map (fun o => o.id)).contains o.id) :=
        List.Perm.append_left _ hpermS
    _ = plansOrders groupPlans ++ (prioritizeOrders now orders).filter
          (fun o => decide (o.id ∉ (plansOrders groupPlans).map (fun x => x.id))) := by
        rw [hfe]
    _ ~ prioritizeOrders now orders := hsplit.symm
    _ ~ orders := prioritizeOrders_perm now orders

/-- C1: on a snapshot accepted by input validation whose orders have
distinct ids, the orders carried by the returned rake plans (each plan
contributing its order list) together with `unfulfilledOrders` are a
permutation of the input orders — every input order lands in exactly one
plan or in the unfulfilled list, never in both, never in neither, and never
twice. -/
theorem C1_partition (now year : Int) (orders : List Order)
    (inventory : List InventoryItem) (wagons : List Wagon) (lps : List LoadingPoint)
    (r : OptimizationResult)
    (hval : validateInputs orders inventory wagons lps = true)
    (hnodup : (orders.map (fun o => o.id)).Nodup)
    (heq : optimize now year orders inventory wagons lps = .ok r) :
    (plansOrders r.rakePlans ++ r.unfulfilledOrders).Perm orders :=
  optimize_partition now year orders inventory wagons lps r hnodup heq

/-- C1 witness: on the validated Scenario A snapshot the run returns no plan
and the one order unfulfilled, a permutation of the input. -/
theorem C1_partition_witness :
    (plansOrders (⟨[], [orderA], 0, 0⟩ : OptimizationResult).rakePlans ++
      (⟨[], [orderA], 0, 0⟩ : OptimizationResult).unfulfilledOrders).Perm [orderA] :=
  C1_partition 0 2025 [orderA] invA wagA [lpIron] ⟨[], [orderA], 0, 0⟩
    (by decide!) (by decide!) (by decide!)

/-- C2 (amended): every returned plan's wagon count lies within
[minWagons, maxWagons], and wagon count × per-wagon capacity is at least
the lesser of the plan's total tonnage and the largest rake's capacity
(maxWagons × capacity); the unclamped inequality `count × capacity ≥
tonnage` fails when the count is clamped at maxWagons. -/
theorem C2_wagon_bounds_amended (now year : Int) (orders : List Order)
    (inventory : List InventoryItem) (wagons : List Wagon) (lps : List LoadingPoint)
    (r : OptimizationResult)
    (heq : optimize now year orders inventory wagons lps = .ok r) :
    ∀ pl ∈ r.rakePlans,
      RAKE_minWagons ≤ pl.wagonCount ∧ pl.wagonCount ≤ RAKE_maxWagons ∧
      min pl.totalTonnage ((RAKE_maxWagons : Rat) * getWagonCapacity pl.wagonType) ≤
        (pl.wagonCount : Rat) * getWagonCapacity pl.wagonType := by
  intro pl hpl
  obtain ⟨-, p, hplEq, hformula, hminW, hutilEq, hutilGe, hord⟩ :=
    optimize_plan_provenance now year orders inventory wagons lps r heq pl hpl
  subst hplEq
  rw [mkRakePlanRecord_wagonCount, mkRakePlanRecord_totalTonnage, mkRakePlanRecord_wagonType]
  refine ⟨hminW, ?_, ?_⟩
  · rw [hformula]
    exact min_le_right _ _
  · exact wagon_capacity_of_formula (getWagonCapacity_pos p.wagonType) hformula

/-- C2 witness: the plan of the 3000 t scenario satisfies the amended wagon
bounds at its concrete values. -/
theorem C2_wagon_bounds_amended_witness :
    RAKE_minWagons ≤ planW.wagonCount ∧ planW.wagonCount ≤ RAKE_maxWagons ∧
    min planW.totalTonnage ((RAKE_maxWagons : Rat) * getWagonCapacity planW.wagonType) ≤
      (planW.wagonCount : Rat) * getWagonCapacity planW.wagonType :=
  C2_wagon_bounds_amended 0 2025 [orderW] invW wagW [lpIron] resW (by decide!) planW
    (by decide!)

/-- C3 (amended): on a validated snapshot whose inventory has at most one
row per stockyard/product pair, the tonnage consumed from a pair never
exceeds that row's original availability, and the wagons consumed from a
type never exceed the first matching fleet row's original availability;
with duplicate inventory rows for one pair the guarantee fails. -/
theorem C3_conservation_amended (now year : Int) (orders : List Order)
    (inventory : List InventoryItem) (wagons : List Wagon) (lps : List LoadingPoint)
    (r : OptimizationResult)
    (hval : validateInputs orders inventory wagons lps = true)
    (hnodupI : (invKeys inventory).Nodup)
    (heq : optimize now year orders inventory wagons lps = .ok r) :
    (∀ sy pr, consumedTonnage r.rakePlans sy pr ≤ invAvail inventory sy pr) ∧
    (∀ wt, (consumedWagonCount r.rakePlans wt : Rat) ≤ wagAvail wagons wt) := by
  obtain ⟨hne, hvo, hvi, hwne, hvw, hvl⟩ := validateInputs_spec hval
  have hhomog := groups_homog_of_valid now hvo
  obtain ⟨r', heq', gp, sp, nu, hrp, hru, hprov, hsubG, hprodG, hprodS, hpermS, hinv, hwag⟩ :=
    optimize_spec now year orders inventory wagons lps
  rw [heq'] at heq
  injection heq with h
  subst h
  constructor
  · intro sy pr
    rcases hinv hnodupI sy pr hhomog with h0 | hle
    · rw [h0]
      exact invAvail_nonneg (fun i hi => (hvi i hi).1) sy pr
    · linarith
  · intro wt
    rcases hwag wt with h0 | hle
    · rw [h0]
      push_cast
      exact wagAvail_nonneg (fun w hw => by exact_mod_cast (hvw w hw).1) wt
    · linarith

/-- C3 witness: on the 3000 t scenario the consumed tonnage and wagons stay
within the unique inventory row and the BOXN fleet row. -/
theorem C3_conservation_amended_witness :
    consumedTonnage resW.rakePlans "Bhilai" "Iron Ore" ≤ invAvail invW "Bhilai" "Iron Ore" ∧
    (consumedWagonCount resW.rakePlans "BOXN" : Rat) ≤ wagAvail wagW "BOXN" :=
  ⟨(C3_conservation_amended 0 2025 [orderW] invW wagW [lpIron] resW (by decide!)
      (by decide!) (by decide!)).1 "Bhilai" "Iron Ore",
   (C3_conservation_amended 0 2025 [orderW] invW wagW [lpIron] resW (by decide!)
      (by decide!) (by decide!)).2 "BOXN"⟩

/-- C5 (amended): every returned plan's stored utilization is the exact
ratio total tonnage / (wagon count × capacity) rounded to two decimals; the
exact ratio and the stored value are both at least minUtilization = 0.75.
The stored field is not the exact ratio itself. -/
theorem C5_utilization_amended (now year : Int) (orders : List Order)
    (inventory : List InventoryItem) (wagons : List Wagon) (lps : List LoadingPoint)
    (r : OptimizationResult)
    (heq : optimize now year orders inventory wagons lps = .ok r) :
    ∀ pl ∈ r.rakePlans,
      pl.utilization = roundTo2 (pl.totalTonnage /
        ((pl.wagonCount : Rat) * getWagonCapacity pl.wagonType)) ∧
      RAKE_minUtilization ≤ pl.totalTonnage /
        ((pl.wagonCount : Rat) * getWagonCapacity pl.wagonType) ∧
      RAKE_minUtilization ≤ pl.utilization := by
  intro pl hpl
  obtain ⟨-, p, hplEq, hformula, hminW, hutilEq, hutilGe, hord⟩ :=
    optimize_plan_provenance now year orders inventory wagons lps r heq pl hpl
  subst hplEq
  rw [mkRakePlanRecord_utilization, mkRakePlanRecord_totalTonnage,
    mkRakePlanRecord_wagonType, mkRakePlanRecord_wagonCount, ← hutilEq]
  exact ⟨rfl, hutilGe, roundTo2_ge_075 p.utilization hutilGe⟩

/-- C5 witness: the 3000 t scenario plan stores the rounded ratio 0.98 and
both the exact and stored utilization clear the floor. -/
theorem C5_utilization_amended_witness :
    planW.utilization = roundTo2 (planW.totalTonnage /
      ((planW.wagonCount : Rat) * getWagonCapacity planW.wagonType)) ∧
    RAKE_minUtilization ≤ planW.totalTonnage /
      ((planW.wagonCount : Rat) * getWagonCapacity planW.wagonType) ∧
    RAKE_minUtilization ≤ planW.utilization :=
  C5_utilization_amended 0 2025 [orderW] invW wagW [lpIron] resW (by decide!) planW
    (by decide!)

/-- C6: every returned plan's cost breakdown consists of the seven exact
cost components each rounded to the nearest integer, the reported total is
the rounding of the exact component sum, the plan's cost equals that total,
and the seven rounded components sum to the total within the accumulated
rounding tolerance of 4 units. -/
theorem C6_cost_breakdown_consistency (now year : Int) (orders : List Order)
    (inventory : List InventoryItem) (wagons : List Wagon) (lps : List LoadingPoint)
    (r : OptimizationResult)
    (heq : optimize now year orders inventory wagons lps = .ok r) :
    ∀ pl ∈ r.rakePlans, ∃ p : BuildParams,
      pl.costBreakdown.base_freight = jsRound ((exactCostComponents now p).getD 0 0) ∧
      pl.costBreakdown.distance_cost = jsRound ((exactCostComponents now p).getD 1 0) ∧
      pl.costBreakdown.loading_cost = jsRound ((exactCostComponents now p).getD 2 0) ∧
      pl.costBreakdown.demurrage = jsRound ((exactCostComponents now p).getD 3 0) ∧
      pl.costBreakdown.penalty = jsRound ((exactCostComponents now p).getD 4 0) ∧
      pl.costBreakdown.idle_freight = jsRound ((exactCostComponents now p).getD 5 0) ∧
      pl.costBreakdown.priority_premium = jsRound ((exactCostComponents now p).getD 6 0) ∧
      pl.costBreakdown.total = jsRound (exactCostComponents now p).sum ∧
      pl.cost = pl.costBreakdown.total ∧
      |(pl.costBreakdown.base_freight + pl.costBreakdown.distance_cost +
        pl.costBreakdown.loading_cost + pl.costBreakdown.demurrage +
        pl.costBreakdown.penalty + pl.costBreakdown.idle_freight +
        pl.costBreakdown.priority_premium - pl.costBreakdown.total : Int)| ≤ 4 := by
  intro pl hpl
  obtain ⟨-, p, hplEq, -⟩ :=
    optimize_plan_provenance now year orders inventory wagons lps r heq pl hpl
  refine ⟨p, ?_⟩
  subst hplEq
  rw [mkRakePlanRecord_cost, mkRakePlanRecord_costBreakdown]
  obtain ⟨a, b, c, d, e, f, g, hshape⟩ := exactCostComponents_shape now p
  rw [hshape]
  simp only [List.getD_cons_succ, List.getD_cons_zero, List.sum_cons, List.sum_nil,
    add_zero]
  have hsum : a + (b + (c + (d + (e + (f + g))))) = a + b + c + d + e + f + g := by ring
  refine ⟨?_, ?_, ?_, ?_, ?_, ?_, ?_, ?_, ?_, ?_⟩ <;>
    first
      | trivial
      | (rw [hsum]; exact jsRound_sum7 a b c d e f g)

/-- C6 witness: the 3000 t scenario plan's breakdown at its concrete values. -/
theorem C6_cost_breakdown_consistency_witness :
    ∃ p : BuildParams,
      planW.costBreakdown.base_freight = jsRound ((exactCostComponents 0 p).getD 0 0) ∧
      planW.costBreakdown.distance_cost = jsRound ((exactCostComponents 0 p).getD 1 0) ∧
      planW.costBreakdown.loading_cost = jsRound ((exactCostComponents 0 p).getD 2 0) ∧
      planW.costBreakdown.demurrage = jsRound ((exactCostComponents 0 p).getD 3 0) ∧
      planW.costBreakdown.penalty = jsRound ((exactCostComponents 0 p).getD 4 0) ∧
      planW.costBreakdown.idle_freight = jsRound ((exactCostComponents 0 p).getD 5 0) ∧
      planW.costBreakdown.priority_premium = jsRound ((exactCostComponents 0 p).getD 6 0) ∧
      planW.costBreakdown.total = jsRound (exactCostComponents 0 p).sum ∧
      planW.cost = planW.costBreakdown.total ∧
      |(planW.costBreakdown.base_freight + planW.costBreakdown.distance_cost +
        planW.costBreakdown.loading_cost + planW.costBreakdown.demurrage +
        planW.costBreakdown.penalty + planW.costBreakdown.idle_freight +
        planW.costBreakdown.priority_premium - planW.costBreakdown.total : Int)| ≤ 4 :=
  C6_cost_breakdown_consistency 0 2025 [orderW] invW wagW [lpIron] resW (by decide!) planW
    (by decide!)

/-- C7 counterexample: a validated snapshot with two orders sharing one id
shows the routing half of the claim false — nothing throws, but the
unplannable second order is neither planned nor in `unfulfilledOrders`. -/
theorem C7_counterexample :
    validateInputs [oIronDup, oScrap] invW wagW [lpIron] = true ∧
    (optimize 0 2025 [oIronDup, oScrap] invW wagW [lpIron]).toOption.map
      (fun r => (decide (oScrap ∈ plansOrders r.rakePlans),
        decide (oScrap ∈ r.unfulfilledOrders))) = some (false, false) := by
  decide!

/-- C7 (amended): `optimize()` never errors — the four defensive throws are
unreachable — and, provided the order ids are distinct, every input order
that appears in no plan is returned in `unfulfilledOrders`. -/
theorem C7_no_throw_amended (now year : Int) (orders : List Order)
    (inventory : List InventoryItem) (wagons : List Wagon) (lps : List LoadingPoint)
    (hval : validateInputs orders inventory wagons lps = true) :
    (optimize now year orders inventory wagons lps).isOk = true ∧
    ((orders.map (fun o => o.id)).Nodup →
      ∀ r, optimize now year orders inventory wagons lps = .ok r →
        ∀ o ∈ orders, o ∉ plansOrders r.rakePlans → o ∈ r.unfulfilledOrders) := by
  constructor
  · obtain ⟨r, heq, -⟩ := optimize_spec now year orders inventory wagons lps
    rw [heq]
    rfl
  · intro hnodup r heq o ho hnp
    have hperm := optimize_partition now year orders inventory wagons lps r hnodup heq
    have hmem : o ∈ plansOrders r.rakePlans ++ r.unfulfilledOrders := hperm.symm.subset ho
    rcases List.mem_append.mp hmem with h | h
    · exact absurd h hnp
    · exact h

/-- C7 witness: on the validated Scenario A snapshot the run succeeds and
the unplannable order is routed to `unfulfilledOrders`. -/
theorem C7_no_throw_amended_witness :
    (optimize 0 2025 [orderA] invA wagA [lpIron]).isOk = true ∧
    orderA ∈ (⟨[], [orderA], 0, 0⟩ : OptimizationResult).unfulfilledOrders :=
  ⟨(C7_no_throw_amended 0 2025 [orderA] invA wagA [lpIron] (by decide!)).1,
   (C7_no_throw_amended 0 2025 [orderA] invA wagA [lpIron] (by decide!)).2 (by decide!)
     ⟨[], [orderA], 0, 0⟩ (by decide!) orderA (by decide!) (by decide!)⟩

/-- C9: every returned plan's `idle_freight` component is exactly 0 — idle
freight is charged only below 0.75 utilization, and every accepted plan's
exact utilization is at least that floor. -/
theorem C9_idle_freight_zero (now year : Int) (orders : List Order)
    (inventory : List InventoryItem) (wagons : List Wagon) (lps : List LoadingPoint)
    (r : OptimizationResult)
    (heq : optimize now year orders inventory wagons lps = .ok r) :
    ∀ pl ∈ r.rakePlans, pl.costBreakdown.idle_freight = 0 := by
  intro pl hpl
  obtain ⟨-, p, hplEq, hformula, hminW, hutilEq, hutilGe, hord⟩ :=
    optimize_plan_provenance now year orders inventory wagons lps r heq pl hpl
  subst hplEq
  rw [mkRakePlanRecord_costBreakdown]
  show jsRound ((exactCostComponents now p).getD 5 0) = 0
  rw [exactCostComponents_idle now p hutilGe, jsRound_zero]

/-- C9 witness: the 3000 t scenario plan's idle-freight component is 0. -/
theorem C9_idle_freight_zero_witness :
    planW.costBreakdown.idle_freight = 0 :=
  C9_idle_freight_zero 0 2025 [orderW] invW wagW [lpIron] resW (by decide!) planW
    (by decide!)

/-- C10 (amended): on a validated snapshot with distinct order ids, an order
whose product has no entry in the `PRODUCTS` table is returned in
`unfulfilledOrders` and appears in no plan; with colliding ids such an
order can be dropped entirely. -/
theorem C10_orphan_product_amended (now year : Int) (orders : List Order)
    (inventory : List InventoryItem) (wagons : List Wagon) (lps : List LoadingPoint)
    (r : OptimizationResult) (o : Order)
    (hval : validateInputs orders inventory wagons lps = true)
    (hnodup : (orders.map (fun x => x.id)).Nodup)
    (heq : optimize now year orders inventory wagons lps = .ok r)
    (ho : o ∈ orders) (hprod : PRODUCTS o.product_name = none) :
    o ∈ r.unfulfilledOrders ∧ ∀ pl ∈ r.rakePlans, o ∉ pl.orders := by
  have hperm := optimize_partition now year orders inventory wagons lps r hnodup heq
  obtain ⟨r', heq', gp, sp, nu, hrp, hru, hprov, hsubG, hprodG, hprodS, hpermS, hinv, hwag⟩ :=
    optimize_spec now year orders inventory wagons lps
  rw [heq'] at heq
  injection heq with h
  subst h
  have hhomog := groups_homog_of_valid now (validateInputs_spec hval).2.1
  have hnp : ∀ pl ∈ r'.rakePlans, o ∉ pl.orders := by
    intro pl hpl hoin
    have hpl' : pl ∈ gp ++ sp := by rw [← hrp]; exact hpl
    rcases List.mem_append.mp hpl' with hg | hs
    · have hsome := hprodG hhomog pl hg o hoin
      rw [hprod] at hsome
      simp at hsome
    · have hsome := hprodS pl hs o hoin
      rw [hprod] at hsome
      simp at hsome
  refine ⟨?_, hnp⟩
  have homem : o ∈ plansOrders r'.rakePlans ++ r'.unfulfilledOrders := hperm.symm.subset ho
  rcases List.mem_append.mp homem with hin | hin
  · simp only [plansOrders] at hin
    obtain ⟨pl, hpl, hoin⟩ := List.mem_flatMap.mp hin
    exact absurd hoin (hnp pl hpl)
  · exact hin

/-- C10 witness: with a fresh id, the Steel Scrap order (absent from the
product table) passes validation, is planned nowhere, and is returned
unfulfilled. -/
theorem C10_orphan_product_amended_witness :
    oScrapOk ∈ resS.unfulfilledOrders ∧ ∀ pl ∈ resS.rakePlans, oScrapOk ∉ pl.orders :=
  C10_orphan_product_amended 0 2025 [oIronDup, oScrapOk] invW wagW [lpIron] resS oScrapOk
    (by decide!) (by decide!) (by decide!) (by decide!) (by decide!)
